import Mathlib

/-!
Verification of the bar-schedule comparison core (`src/App.jsx`, strict-tally
variant, and the unnamed variant file, whitespace-tolerant tally with
per-mark section view).

The extraction functions in the source are driven by three JavaScript regexes
run in a `pattern.exec` loop with the `g` flag:

  page 1 (required list):  \b(\d+)\s+([A-Z]\d+)\s+\d+\s+\d+\s+([A-Z]{1,3}\d+)\b
  page 2, strict variant:  \b(\d+)([A-Z]\d+)-([A-Z]{1,3}\d+)(?:-\d+)?\b
  page 2, tolerant variant: \b(\d+)\s*([A-Z]\d+)\s*-\s*([A-Z]{1,3}\d+)(?:-\s*\d+)?\b

For these particular patterns backtracking is vacuous: every `\d+`, `\s+`,
`\s*`, `[A-Z]\d+` and `[A-Z]{1,3}` component is followed by a character class
disjoint from its own, so the greedy maximal take is forced, with one
exception: the optional trailing group `(?:-\d+)?` may be abandoned when the
final `\b` fails after it, in which case the match ends right after the mark
digits (the next character is then `-`, a non-word character, so `\b` holds).
The matchers below are direct deterministic renderings of this forced
behaviour; a match always consumes at least one character and always ends in
a digit (the pattern ends with `\d+` possibly followed by the optional
`-\d+`), so after a successful match the scanner's previous character is a
word character.
-/

/-- JavaScript `\d` on the characters of interest: ASCII decimal digit. -/
def isDigitChar (c : Char) : Bool :=
  48 ≤ c.toNat && c.toNat ≤ 57

/-- ASCII uppercase letter, the class `[A-Z]` of the source regexes. -/
def isUpperChar (c : Char) : Bool :=
  65 ≤ c.toNat && c.toNat ≤ 90

/-- JavaScript `\s` restricted to ASCII whitespace: space, tab, LF, VT, FF, CR. -/
def isSpaceChar (c : Char) : Bool :=
  c.toNat = 32 || c.toNat = 9 || c.toNat = 10 || c.toNat = 11 || c.toNat = 12 || c.toNat = 13

/-- JavaScript word character (for the `\b` assertion): `[A-Za-z0-9_]`. -/
def isWordChar (c : Char) : Bool :=
  isDigitChar c || isUpperChar c || (97 ≤ c.toNat && c.toNat ≤ 122) || c.toNat = 95

/-- `parseInt(digits, 10)` on a string of ASCII digits. -/
def digitsToNat (l : List Char) : Nat :=
  l.foldl (fun n c => 10 * n + (c.toNat - 48)) 0

/-- A record extracted from Page 1 text (`extractPage1Data`). -/
structure P1Rec where
  required : Nat
  diameter : String
  mark : String
deriving DecidableEq

/-- A record extracted from Page 2+ text (`extractPage2Data`). -/
structure P2Rec where
  count : Nat
  diameter : String
  mark : String
deriving DecidableEq

/-- A tally group: `{ total, diameter }` in `page2Grouped`. -/
structure TallyGroup where
  total : Nat
  diameter : String
deriving DecidableEq

/-- The `\b` word-boundary assertion after a just-matched digit: the match is
accepted only if the remaining text is empty or starts with a non-word
character. -/
def boundaryOK : List Char → Bool
  | [] => true
  | c :: _ => !isWordChar c

/-- Attempt to match `\b(\d+)\s+([A-Z]\d+)\s+\d+\s+\d+\s+([A-Z]{1,3}\d+)\b` at
the head of `l`.  `prevW` records whether the character immediately before `l`
in the full text is a word character (the leading `\b` fails if it is).
Returns the captured record and the text after the match. -/
def matchPage1At (prevW : Bool) (l : List Char) : Option (P1Rec × List Char) :=
  if prevW then none else
  let d1 := l.takeWhile isDigitChar
  let r1 := l.dropWhile isDigitChar
  if d1.isEmpty then none else
  let s1 := r1.takeWhile isSpaceChar
  let r2 := r1.dropWhile isSpaceChar
  if s1.isEmpty then none else
  match r2 with
  | [] => none
  | c :: r3 =>
    if isUpperChar c then
      let d2 := r3.takeWhile isDigitChar
      let r4 := r3.dropWhile isDigitChar
      if d2.isEmpty then none else
      let s2 := r4.takeWhile isSpaceChar
      let r5 := r4.dropWhile isSpaceChar
      if s2.isEmpty then none else
      let d3 := r5.takeWhile isDigitChar
      let r6 := r5.dropWhile isDigitChar
      if d3.isEmpty then none else
      let s3 := r6.takeWhile isSpaceChar
      let r7 := r6.dropWhile isSpaceChar
      if s3.isEmpty then none else
      let d4 := r7.takeWhile isDigitChar
      let r8 := r7.dropWhile isDigitChar
      if d4.isEmpty then none else
      let s4 := r8.takeWhile isSpaceChar
      let r9 := r8.dropWhile isSpaceChar
      if s4.isEmpty then none else
      let ls := r9.takeWhile isUpperChar
      let r10 := r9.dropWhile isUpperChar
      if ls.isEmpty || decide (3 < ls.length) then none else
      let d5 := r10.takeWhile isDigitChar
      let r11 := r10.dropWhile isDigitChar
      if d5.isEmpty then none else
      if boundaryOK r11 then
        some ({ required := digitsToNat d1, diameter := String.mk (c :: d2),
                mark := String.mk (ls ++ d5) }, r11)
      else none
    else none

/-- Attempt to match the strict tally pattern
`\b(\d+)([A-Z]\d+)-([A-Z]{1,3}\d+)(?:-\d+)?\b` at the head of `l`. -/
def matchPage2StrictAt (prevW : Bool) (l : List Char) : Option (P2Rec × List Char) :=
  if prevW then none else
  let d1 := l.takeWhile isDigitChar
  let r1 := l.dropWhile isDigitChar
  if d1.isEmpty then none else
  match r1 with
  | [] => none
  | c :: r2 =>
    if isUpperChar c then
      let d2 := r2.takeWhile isDigitChar
      let r3 := r2.dropWhile isDigitChar
      if d2.isEmpty then none else
      match r3 with
      | '-' :: r4 =>
        let ls := r4.takeWhile isUpperChar
        let r5 := r4.dropWhile isUpperChar
        if ls.isEmpty || decide (3 < ls.length) then none else
        let d3 := r5.takeWhile isDigitChar
        let r6 := r5.dropWhile isDigitChar
        if d3.isEmpty then none else
        let res : P2Rec := { count := digitsToNat d1, diameter := String.mk (c :: d2),
                             mark := String.mk (ls ++ d3) }
        match r6 with
        | '-' :: r7 =>
          let d4 := r7.takeWhile isDigitChar
          let r8 := r7.dropWhile isDigitChar
          if !d4.isEmpty && boundaryOK r8 then some (res, r8)
          else if boundaryOK r6 then some (res, r6) else none
        | _ => if boundaryOK r6 then some (res, r6) else none
      | _ => none
    else none

/-- Attempt to match the whitespace-tolerant tally pattern
`\b(\d+)\s*([A-Z]\d+)\s*-\s*([A-Z]{1,3}\d+)(?:-\s*\d+)?\b` at the head of `l`. -/
def matchPage2TolAt (prevW : Bool) (l : List Char) : Option (P2Rec × List Char) :=
  if prevW then none else
  let d1 := l.takeWhile isDigitChar
  let r1 := l.dropWhile isDigitChar
  if d1.isEmpty then none else
  let r2 := r1.dropWhile isSpaceChar
  match r2 with
  | [] => none
  | c :: r3 =>
    if isUpperChar c then
      let d2 := r3.takeWhile isDigitChar
      let r4 := r3.dropWhile isDigitChar
      if d2.isEmpty then none else
      let r5 := r4.dropWhile isSpaceChar
      match r5 with
      | '-' :: r6 =>
        let r7 := r6.dropWhile isSpaceChar
        let ls := r7.takeWhile isUpperChar
        let r8 := r7.dropWhile isUpperChar
        if ls.isEmpty || decide (3 < ls.length) then none else
        let d3 := r8.takeWhile isDigitChar
        let r9 := r8.dropWhile isDigitChar
        if d3.isEmpty then none else
        let res : P2Rec := { count := digitsToNat d1, diameter := String.mk (c :: d2),
                             mark := String.mk (ls ++ d3) }
        match r9 with
        | '-' :: r10 =>
          let r11 := r10.dropWhile isSpaceChar
          let d4 := r11.takeWhile isDigitChar
          let r12 := r11.dropWhile isDigitChar
          if !d4.isEmpty && boundaryOK r12 then some (res, r12)
          else if boundaryOK r9 then some (res, r9) else none
        | _ => if boundaryOK r9 then some (res, r9) else none
      | _ => none
    else none

/-- The `while ((match = pattern.exec(text)) !== null)` loop: scan for the
leftmost match at or after the current position, emit it, and resume right
after the matched span.  After a successful match the previous character is a
digit (every match of the three patterns ends in one), hence a word
character, so the recursive call passes `true`.  The `fuel` argument only
serves termination; every match consumes at least one character, so
`fuel = length of the text` suffices (shown below). -/
def scanFuel {α : Type} (m : Bool → List Char → Option (α × List Char)) :
    Nat → Bool → List Char → List α
  | 0, _, _ => []
  | _ + 1, _, [] => []
  | fuel + 1, prevW, c :: cs =>
    match m prevW (c :: cs) with
    | some (r, rest) => r :: scanFuel m fuel true rest
    | none => scanFuel m fuel (isWordChar c) cs

/-- Run a matcher over a whole text, starting at position 0 (no previous
character, so the leading `\b` holds before a word character). -/
def scanAll {α : Type} (m : Bool → List Char → Option (α × List Char))
    (prevW : Bool) (l : List Char) : List α :=
  scanFuel m l.length prevW l

/-- `extractPage1Data` of `src/App.jsx` (identical in the variant file). -/
def extractPage1Data (text : String) : List P1Rec :=
  scanAll matchPage1At false text.data

/-- `extractPage2Data` of `src/App.jsx` (strict grammar, no whitespace
around the dash). -/
def extractPage2Data (text : String) : List P2Rec :=
  scanAll matchPage2StrictAt false text.data

/-- `extractPage2Data` of the variant file (whitespace tolerant around the
dash). -/
def extractPage2DataTol (text : String) : List P2Rec :=
  scanAll matchPage2TolAt false text.data

/-- One step of the grouping loop of `handleCompare`:
`if (!page2Grouped[key]) page2Grouped[key] = { total: 0, diameter }; total += count`.
The association list keeps JavaScript object key-insertion order (a new key is
appended at the end, an existing key is updated in place). -/
def upsert : List (String × TallyGroup) → P2Rec → List (String × TallyGroup)
  | [], item => [(item.mark, { total := 0 + item.count, diameter := item.diameter })]
  | (k, g) :: rest, item =>
    if k = item.mark then (k, { g with total := g.total + item.count }) :: rest
    else (k, g) :: upsert rest item

/-- `page2Grouped`: group Page 2 records by bar mark, summing counts; the
diameter of a group is the diameter of the first record with that mark. -/
def page2Grouped (data : List P2Rec) : List (String × TallyGroup) :=
  data.foldl upsert []

/-- JavaScript `Math.round`: round half toward positive infinity. -/
def jsMathRound (q : ℚ) : ℤ :=
  ⌊q + 1 / 2⌋

/-- A comparison table row of the strict variant (`src/App.jsx`). -/
structure Row where
  mark : String
  required : Nat
  requiredDiameter : String
  tally : Int
  extractedDiameter : String
  diff : Int
  diameterMatch : Bool
deriving DecidableEq

/-- The row constructed for one Page 1 record inside `handleCompare` of
`src/App.jsx`: `tally` is the group total (0 if the mark has no group),
halved with `Math.round(tally / 2)` when the section-and-layout flag is set;
`diff = tally - required`; `diameterMatch` is false when no group exists. -/
def mkRowA (grouped : List (String × TallyGroup)) (sectionAndLayout : Bool)
    (item : P1Rec) : Row :=
  let page2Entry := grouped.lookup item.mark
  let tally0 : Int := match page2Entry with | some g => (g.total : Int) | none => 0
  let tally : Int := if sectionAndLayout then jsMathRound ((tally0 : ℚ) / 2) else tally0
  { mark := item.mark
    required := item.required
    requiredDiameter := item.diameter
    tally := tally
    extractedDiameter := match page2Entry with | some g => g.diameter | none => "N/A"
    diff := tally - (item.required : Int)
    diameterMatch := match page2Entry with | some g => g.diameter == item.diameter | none => false }

/-- The sign of `a.localeCompare(b)` under the root/common default collation
(locales such as C or en), restricted to the mark alphabet (ASCII uppercase
letters and digits), where that collation coincides with ordinal code-point
comparison.  `localeCompare` itself is locale-sensitive: other default
locales diverge from ordinal order even on mark strings (see
`daCompareStrings`), so the ambient collation is made an explicit parameter
in `handleCompareLocale` below; this comparator is the root-locale instance. -/
def jsCompareChars : List Char → List Char → Int
  | [], [] => 0
  | [], _ :: _ => -1
  | _ :: _, [] => 1
  | a :: as, b :: bs => if a < b then -1 else if b < a then 1 else jsCompareChars as bs

/-- String-level comparator `(a, b) => a.localeCompare(b)` (sign only) under
the root/common default collation. -/
def jsCompareStrings (a b : String) : Int :=
  jsCompareChars a.data b.data

/-- Stable insertion step realising `Array.prototype.sort` with the comparator
`(a, b) => a.mark.localeCompare(b.mark)` in the root/common default locale:
an element is placed before the first element that compares strictly
greater, after equal ones (stability, guaranteed by the ECMAScript
specification). -/
def insertRow (a : Row) : List Row → List Row
  | [] => [a]
  | b :: bs => if jsCompareStrings a.mark b.mark < 0 then a :: b :: bs else b :: insertRow a bs

/-- `tableData.sort((a, b) => a.mark.localeCompare(b.mark))` in the
root/common default locale. -/
def sortRows (l : List Row) : List Row :=
  l.foldr insertRow []

/-- `handleCompare` of `src/App.jsx` as it behaves in the root/common default
locale: extract both texts, group Page 2 data, build one row per Page 1
record, sort by mark with `localeCompare`.  The locale-generic version is
`handleCompareLocale` below; this equals its root-locale instance
(`handleCompare_eq_locale`). -/
def handleCompare (text1 text2 : String) (sectionAndLayout : Bool) : List Row :=
  let page1Data := extractPage1Data text1
  let page2Data := extractPage2Data text2
  let grouped := page2Grouped page2Data
  sortRows (page1Data.map (mkRowA grouped sectionAndLayout))

/-- The ignore store: a JavaScript object keyed by bar mark, `true` meaning
ignored.  `lookup` returning `none` corresponds to `undefined`. -/
def isIgnored (ignoredRows : List (String × Bool)) (mark : String) : Bool :=
  (ignoredRows.lookup mark).getD false

/-- `{ ...prev, [mark]: v }`: update the entry in place if the key exists,
append it otherwise. -/
def setEntry : List (String × Bool) → String → Bool → List (String × Bool)
  | [], k, v => [(k, v)]
  | (k', v') :: rest, k, v =>
    if k' = k then (k', v) :: rest else (k', v') :: setEntry rest k v

/-- `toggleIgnore`: `setIgnoredRows(prev => ({ ...prev, [mark]: !prev[mark] }))`.
A missing entry reads as `undefined`, so `!prev[mark]` is `true` for it. -/
def toggleIgnore (ignoredRows : List (String × Bool)) (mark : String) : List (String × Bool) :=
  setEntry ignoredRows mark (!isIgnored ignoredRows mark)

/-- The filtered list of mismatched bar marks, in row order:
`results.filter(row => ((row.diff !== 0) || !row.diameterMatch) && !ignoredRows[row.mark]).map(row => row.mark)`. -/
def mismatchedMarkList (results : List Row) (ignoredRows : List (String × Bool)) : List String :=
  (results.filter fun row =>
    (!(row.diff == 0) || !row.diameterMatch) && !isIgnored ignoredRows row.mark).map (·.mark)

/-- `Array.prototype.join('\n')`. -/
def joinNL : List String → String
  | [] => ""
  | [m] => m
  | m :: rest => m ++ "\n" ++ joinNL rest

/-- The `mismatchedBars` string of `src/App.jsx`. -/
def mismatchedBars (results : List Row) (ignoredRows : List (String × Bool)) : String :=
  joinNL (mismatchedMarkList results ignoredRows)

/-- The rendered report: `{mismatchedBars || "None"}` — the empty string is
falsy, so it is replaced by the literal `"None"`. -/
def mismatchedDisplay (results : List Row) (ignoredRows : List (String × Bool)) : String :=
  if mismatchedBars results ignoredRows = "" then "None" else mismatchedBars results ignoredRows

/-- A comparison table row of the variant file (per-mark section view). -/
structure RowB where
  mark : String
  required : Nat
  requiredDiameter : String
  inSection : Bool
  effectiveRequired : Nat
  tally : Nat
  diff : Int
  diameterMatch : Bool
  extractedDiameter : String
deriving DecidableEq

/-- The per-row "Section View" read of the variant file:
`inSectionRows[mark] !== undefined ? inSectionRows[mark] : sectionAndLayout`.
This is the `sectionView(mark, globalDefault)` accessor of the specification:
the stored value when present, the global default otherwise. -/
def sectionView (inSectionRows : List (String × Bool)) (sectionAndLayout : Bool)
    (mark : String) : Bool :=
  match inSectionRows.lookup mark with
  | some b => b
  | none => sectionAndLayout

/-- The row constructed for one Page 1 record inside `handleCompare` of the
variant file: `tally` is never halved; instead, when the row is in section
view, `effectiveRequired = required * 2` and `diff = tally - effectiveRequired`. -/
def mkRowB (grouped : List (String × TallyGroup)) (inSectionRows : List (String × Bool))
    (sectionAndLayout : Bool) (item : P1Rec) : RowB :=
  let page2Entry := grouped.lookup item.mark
  let tally : Nat := match page2Entry with | some g => g.total | none => 0
  let inSection := sectionView inSectionRows sectionAndLayout item.mark
  let effectiveRequired := if inSection then item.required * 2 else item.required
  { mark := item.mark
    required := item.required
    requiredDiameter := item.diameter
    inSection := inSection
    effectiveRequired := effectiveRequired
    tally := tally
    diff := (tally : Int) - (effectiveRequired : Int)
    diameterMatch := match page2Entry with | some g => g.diameter == item.diameter | none => false
    extractedDiameter := match page2Entry with | some g => g.diameter | none => "N/A" }

/-- `toggleInSection` of the variant file: computes `newVal = !prev[mark]`
(a missing entry reads as `undefined`, hence `newVal = true` for it),
rewrites every result row whose mark matches, and stores `newVal`. -/
def toggleInSection (inSectionRows : List (String × Bool)) (results : List RowB)
    (mark : String) : List (String × Bool) × List RowB :=
  let newVal := !((inSectionRows.lookup mark).getD false)
  let updatedResults := results.map fun row =>
    if row.mark = mark then
      { row with
        inSection := newVal
        effectiveRequired := if newVal then row.required * 2 else row.required
        diff := (row.tally : Int) - ((if newVal then row.required * 2 else row.required : Nat) : Int) }
    else row
  (setEntry inSectionRows mark newVal, updatedResults)


/-- Lookup after one `upsert` step: the looked-up mark is updated (created
with the record's count and diameter, or its total increased) exactly when it
is the record's mark. -/
lemma lookup_upsert (acc : List (String × TallyGroup)) (item : P2Rec) (m : String) :
    (upsert acc item).lookup m =
      if item.mark = m then
        match acc.lookup m with
        | none => some { total := 0 + item.count, diameter := item.diameter }
        | some g => some { g with total := g.total + item.count }
      else acc.lookup m := by
  induction acc with
  | nil =>
    rcases eq_or_ne item.mark m with h | h
    · subst h; simp [upsert, List.lookup]
    · have hb : (m == item.mark) = false := beq_eq_false_iff_ne.mpr (Ne.symm h)
      simp [upsert, List.lookup, h, hb]
  | cons kv rest ih =>
    obtain ⟨k, g⟩ := kv
    by_cases hk : k = item.mark
    · subst hk
      rcases eq_or_ne item.mark m with hm | hm
      · subst hm
        simp [upsert, List.lookup]
      · have hb : (m == item.mark) = false := beq_eq_false_iff_ne.mpr (Ne.symm hm)
        simp [upsert, List.lookup, hm, hb]
    · rcases eq_or_ne k m with hm | hm
      · subst hm
        have hmark : item.mark ≠ k := fun h => hk h.symm
        simp [upsert, List.lookup, hk, hmark]
      · have hb : (m == k) = false := beq_eq_false_iff_ne.mpr (Ne.symm hm)
        simp [upsert, List.lookup, hk, hb, ih]

/-- Lookup in the grouping fold, generalised over the accumulator. -/
lemma lookup_foldl_upsert (l : List P2Rec) :
    ∀ (acc : List (String × TallyGroup)) (m : String),
      (l.foldl upsert acc).lookup m =
        match acc.lookup m, l.filter (fun r => r.mark == m) with
        | none, [] => none
        | none, g :: gs => some { total := ((g :: gs).map P2Rec.count).sum, diameter := g.diameter }
        | some g, f => some { total := g.total + (f.map P2Rec.count).sum, diameter := g.diameter } := by
  induction l with
  | nil =>
    intro acc m
    cases h : acc.lookup m with
    | none => simp [List.foldl, h]
    | some g => simp [List.foldl, h]
  | cons x xs ih =>
    intro acc m
    have step : (x :: xs).foldl upsert acc = xs.foldl upsert (upsert acc x) := rfl
    rw [step, ih (upsert acc x) m, lookup_upsert acc x m]
    rcases eq_or_ne x.mark m with hm | hm
    · have hbt : (x.mark == m) = true := beq_iff_eq.mpr hm
      have hf : (x :: xs).filter (fun r => r.mark == m) = x :: xs.filter (fun r => r.mark == m) := by
        simp [List.filter_cons, hbt]
      rw [hf, if_pos hm]
      cases h : acc.lookup m with
      | none =>
        cases hxf : xs.filter (fun r => r.mark == m) with
        | nil => simp [hxf]
        | cons y ys =>
          simp only [hxf, List.map_cons, List.sum_cons, Option.some.injEq, TallyGroup.mk.injEq]
          exact ⟨by omega, trivial⟩
      | some g =>
        cases hxf : xs.filter (fun r => r.mark == m) with
        | nil => simp [hxf]
        | cons y ys =>
          simp only [hxf, List.map_cons, List.sum_cons, Option.some.injEq, TallyGroup.mk.injEq]
          exact ⟨by omega, trivial⟩
    · have hbf : (x.mark == m) = false := beq_eq_false_iff_ne.mpr hm
      have hf : (x :: xs).filter (fun r => r.mark == m) = xs.filter (fun r => r.mark == m) := by
        simp [List.filter_cons, hbf]
      rw [hf, if_neg hm]

/-- Claim C2: aggregation by mark sums the counts of all records sharing the
mark, in input order, and keeps the diameter of the first such record (later
records never change the group's diameter). -/
theorem C2_aggregation (l : List P2Rec) (m : String) :
    (l.filter (fun r => r.mark == m) = [] → (page2Grouped l).lookup m = none)
  ∧ (∀ g gs, l.filter (fun r => r.mark == m) = g :: gs →
      (page2Grouped l).lookup m =
        some { total := ((g :: gs).map P2Rec.count).sum, diameter := g.diameter }) := by
  constructor
  · intro h
    rw [page2Grouped, lookup_foldl_upsert l [] m]
    simp [List.lookup, h]
  · intro g gs h
    rw [page2Grouped, lookup_foldl_upsert l [] m]
    simp [List.lookup, h]

/-- Claim C2 witness: two records share mark `CL1` with different diameters;
the group total is the sum `15 + 13 = 28` and the diameter is that of the
first record (`R10`, not the later `Y12`). -/
theorem C2_aggregation_witness :
    (page2Grouped []).lookup "CL1" = none
  ∧ (page2Grouped [⟨15, "R10", "CL1"⟩, ⟨13, "Y12", "CL1"⟩]).lookup "CL1" =
      some { total := 28, diameter := "R10" } := by
  refine ⟨(C2_aggregation [] "CL1").1 rfl, ?_⟩
  have h := (C2_aggregation [⟨15, "R10", "CL1"⟩, ⟨13, "Y12", "CL1"⟩] "CL1").2
    ⟨15, "R10", "CL1"⟩ [⟨13, "Y12", "CL1"⟩] (by decide)
  simpa using h

/-- `Math.round(t / 2)` for a natural `t` is `(t + 1) / 2` in integer
division: round-half-up semantics. -/
lemma jsMathRound_half (t : Nat) :
    jsMathRound ((t : ℚ) / 2) = (((t + 1) / 2 : Nat) : ℤ) := by
  rcases Nat.even_or_odd t with ⟨k, hk⟩ | ⟨k, hk⟩
  · subst hk
    have h2 : ((k + k + 1) / 2 : ℕ) = k := by omega
    rw [jsMathRound, h2]
    have h1 : ((k + k : ℕ) : ℚ) / 2 + 1 / 2 = ((k : ℤ) : ℚ) + 1 / 2 := by push_cast; ring
    rw [h1, Int.floor_int_add]
    norm_num
  · subst hk
    have h2 : ((2 * k + 1 + 1) / 2 : ℕ) = k + 1 := by omega
    rw [jsMathRound, h2]
    have h1 : ((2 * k + 1 : ℕ) : ℚ) / 2 + 1 / 2 = ((k + 1 : ℤ) : ℚ) := by push_cast; ring
    rw [h1, Int.floor_intCast]
    push_cast
    ring

/-- Claim C4: in the global-halve variant, with the section-and-layout flag
set, every row's tally is `round(total / 2)` with round-half-up semantics
(`(total + 1) / 2`), and 0 when the mark has no group; a group total of 28
with required 60 yields tally 14 and diff -46. -/
theorem C4_global_halve :
    (∀ (grouped : List (String × TallyGroup)) (item : P1Rec),
        (mkRowA grouped true item).tally =
          ((((match grouped.lookup item.mark with
              | some g => g.total
              | none => 0) + 1) / 2 : Nat) : ℤ))
  ∧ (mkRowA [("CL1", { total := 28, diameter := "R10" })] true
      { required := 60, diameter := "Y12", mark := "CL1" }).tally = 14
  ∧ (mkRowA [("CL1", { total := 28, diameter := "R10" })] true
      { required := 60, diameter := "Y12", mark := "CL1" }).diff = -46 := by
  have hgen : ∀ (grouped : List (String × TallyGroup)) (item : P1Rec),
      (mkRowA grouped true item).tally =
        ((((match grouped.lookup item.mark with
            | some g => g.total
            | none => 0) + 1) / 2 : Nat) : ℤ) := by
    intro grouped item
    cases h : grouped.lookup item.mark with
    | none =>
      have hr := jsMathRound_half 0
      norm_num at hr
      simp [mkRowA, h, hr]
    | some g =>
      have hr := jsMathRound_half g.total
      have hc : (((g.total : ℤ) : ℚ)) = ((g.total : ℕ) : ℚ) := by push_cast; ring
      simp only [mkRowA, h]
      rw [hc, hr]
      simp
  refine ⟨hgen, ?_, ?_⟩
  · rw [hgen]
    decide
  · have hd : (mkRowA [("CL1", { total := 28, diameter := "R10" })] true
        { required := 60, diameter := "Y12", mark := "CL1" }).diff =
        (mkRowA [("CL1", { total := 28, diameter := "R10" })] true
          { required := 60, diameter := "Y12", mark := "CL1" }).tally - 60 := rfl
    rw [hd, hgen]
    decide

/-- Claim C5: a required record whose mark has no tally group yields
`tally = 0`, `extractedDiameter = "N/A"`, `diameterMatch = false` and
`diff = 0 - effectiveRequired`; `diameterMatch` can only be true when a group
exists, and then holds exactly on exact string equality of the diameters. -/
theorem C5_missing_group (grouped : List (String × TallyGroup))
    (inSectionRows : List (String × Bool)) (sectionAndLayout : Bool) (item : P1Rec) :
    (grouped.lookup item.mark = none →
        (mkRowB grouped inSectionRows sectionAndLayout item).tally = 0
      ∧ (mkRowB grouped inSectionRows sectionAndLayout item).extractedDiameter = "N/A"
      ∧ (mkRowB grouped inSectionRows sectionAndLayout item).diameterMatch = false
      ∧ (mkRowB grouped inSectionRows sectionAndLayout item).diff =
          0 - ((mkRowB grouped inSectionRows sectionAndLayout item).effectiveRequired : ℤ))
  ∧ (∀ g, grouped.lookup item.mark = some g →
      ((mkRowB grouped inSectionRows sectionAndLayout item).diameterMatch = true ↔
        g.diameter = item.diameter))
  ∧ ((mkRowB grouped inSectionRows sectionAndLayout item).diameterMatch = true →
      ∃ g, grouped.lookup item.mark = some g) := by
  refine ⟨?_, ?_, ?_⟩
  · intro h
    refine ⟨by simp [mkRowB, h], by simp [mkRowB, h], by simp [mkRowB, h], ?_⟩
    simp [mkRowB, h]
  · intro g h
    simp [mkRowB, h, beq_iff_eq]
  · intro h
    cases hg : grouped.lookup item.mark with
    | none => simp [mkRowB, hg] at h
    | some g => exact ⟨g, rfl⟩

/-- Claim C5 witness: mark `LS1` has no tally group (spec Scenario E); mark
`CL1` has one whose diameter `R10` differs from the required `Y12`. -/
theorem C5_missing_group_witness :
    ((mkRowB [] [] false ⟨60, "Y12", "LS1"⟩).tally = 0
      ∧ (mkRowB [] [] false ⟨60, "Y12", "LS1"⟩).extractedDiameter = "N/A"
      ∧ (mkRowB [] [] false ⟨60, "Y12", "LS1"⟩).diameterMatch = false
      ∧ (mkRowB [] [] false ⟨60, "Y12", "LS1"⟩).diff =
          0 - ((mkRowB [] [] false ⟨60, "Y12", "LS1"⟩).effectiveRequired : ℤ))
  ∧ ((mkRowB [("CL1", ⟨28, "R10"⟩)] [] false ⟨60, "Y12", "CL1"⟩).diameterMatch = true ↔
      ("R10" : String) = "Y12") := by
  constructor
  · exact (C5_missing_group [] [] false ⟨60, "Y12", "LS1"⟩).1 rfl
  · exact (C5_missing_group [("CL1", ⟨28, "R10"⟩)] [] false ⟨60, "Y12", "CL1"⟩).2.1
      ⟨28, "R10"⟩ (by decide)

/-- Looking up the key just written by `setEntry` yields the written value. -/
lemma lookup_setEntry_self (s : List (String × Bool)) (k : String) (v : Bool) :
    (setEntry s k v).lookup k = some v := by
  induction s with
  | nil => simp [setEntry, List.lookup]
  | cons kv rest ih =>
    obtain ⟨k', v'⟩ := kv
    by_cases h : k' = k
    · subst h; simp [setEntry, List.lookup]
    · have hb : (k == k') = false := beq_eq_false_iff_ne.mpr (Ne.symm h)
      simp [setEntry, List.lookup, h, hb, ih]

/-- `setEntry` leaves every other key unchanged. -/
lemma lookup_setEntry_other (s : List (String × Bool)) (k k' : String) (v : Bool)
    (h : k' ≠ k) : (setEntry s k v).lookup k' = s.lookup k' := by
  induction s with
  | nil =>
    have hb : (k' == k) = false := beq_eq_false_iff_ne.mpr h
    simp [setEntry, List.lookup, hb]
  | cons kv rest ih =>
    obtain ⟨k0, v0⟩ := kv
    by_cases h0 : k0 = k
    · subst h0
      have hb : (k' == k0) = false := beq_eq_false_iff_ne.mpr h
      simp [setEntry, List.lookup, hb]
    · simp [setEntry, List.lookup, h0, ih]

/-- Claim C8 counterexample: with no stored entry for mark `A1` and the
global section-and-layout default set to true, the mark's current effective
section-view value is true (`sectionView` falls back to the global default),
so flipping the effective value would store `false`; but `toggleInSection`
computes `!prev[mark]` with the missing entry read as `undefined`, and stores
`true`. -/
theorem C8_counterexample :
    (toggleInSection [] [] "A1").1.lookup "A1" ≠ some (!(sectionView [] true "A1")) := by
  decide

/-- Claim C8, amended: `toggleInSection` stores the negation of the *stored*
value, a missing entry reading as inactive (`false`) regardless of the global
default; every result row carrying the toggled mark gets
`effectiveRequired = required × 2` exactly when the new value is active
(`required` otherwise) and `diff = tally - effectiveRequired`; rows with any
other mark and entries for any other mark are unchanged. -/
theorem C8_amended (inSectionRows : List (String × Bool)) (results : List RowB)
    (mark : String) :
    ((toggleInSection inSectionRows results mark).1.lookup mark =
        some (!((inSectionRows.lookup mark).getD false)))
  ∧ (∀ m', m' ≠ mark →
        (toggleInSection inSectionRows results mark).1.lookup m' = inSectionRows.lookup m')
  ∧ ((toggleInSection inSectionRows results mark).2.length = results.length)
  ∧ (∀ i (h1 : i < results.length)
        (h2 : i < (toggleInSection inSectionRows results mark).2.length),
      ((results.get ⟨i, h1⟩).mark = mark →
          ((toggleInSection inSectionRows results mark).2.get ⟨i, h2⟩).inSection =
              (!((inSectionRows.lookup mark).getD false))
        ∧ ((toggleInSection inSectionRows results mark).2.get ⟨i, h2⟩).effectiveRequired =
              (if !((inSectionRows.lookup mark).getD false) then
                (results.get ⟨i, h1⟩).required * 2
               else (results.get ⟨i, h1⟩).required)
        ∧ ((toggleInSection inSectionRows results mark).2.get ⟨i, h2⟩).diff =
              ((((toggleInSection inSectionRows results mark).2.get ⟨i, h2⟩).tally : ℤ) -
                (((toggleInSection inSectionRows results mark).2.get ⟨i, h2⟩).effectiveRequired : ℤ)))
      ∧ ((results.get ⟨i, h1⟩).mark ≠ mark →
          (toggleInSection inSectionRows results mark).2.get ⟨i, h2⟩ = results.get ⟨i, h1⟩)) := by
  refine ⟨?_, ?_, ?_, ?_⟩
  · exact lookup_setEntry_self inSectionRows mark _
  · intro m' hm'
    exact lookup_setEntry_other inSectionRows mark m' _ hm'
  · simp [toggleInSection]
  · intro i h1 h2
    constructor
    · intro hmk
      simp only [List.get_eq_getElem] at hmk
      have hget : (toggleInSection inSectionRows results mark).2.get ⟨i, h2⟩ =
          (let row := results.get ⟨i, h1⟩
           let newVal := !((inSectionRows.lookup mark).getD false)
           if row.mark = mark then
             { row with
               inSection := newVal
               effectiveRequired := if newVal then row.required * 2 else row.required
               diff := (row.tally : ℤ) -
                 ((if newVal then row.required * 2 else row.required : Nat) : ℤ) }
           else row) := by
        simp [toggleInSection, List.get_eq_getElem, List.getElem_map]
      rw [hget]
      simp [hmk]
    · intro hmk
      simp only [List.get_eq_getElem] at hmk
      have hget : (toggleInSection inSectionRows results mark).2.get ⟨i, h2⟩ =
          (let row := results.get ⟨i, h1⟩
           let newVal := !((inSectionRows.lookup mark).getD false)
           if row.mark = mark then
             { row with
               inSection := newVal
               effectiveRequired := if newVal then row.required * 2 else row.required
               diff := (row.tally : ℤ) -
                 ((if newVal then row.required * 2 else row.required : Nat) : ℤ) }
           else row) := by
        simp [toggleInSection, List.get_eq_getElem, List.getElem_map]
      rw [hget]
      simp [hmk]

/-- Claim C8 amended witness: mark `A1` has a stored section-view entry
`true`; toggling stores `false`, leaves other marks untouched, and rewrites
the row to `effectiveRequired = 60` and `diff = 28 - 60`. -/
theorem C8_amended_witness :
    ((toggleInSection [("A1", true)]
        [⟨"A1", 60, "Y12", true, 120, 28, -92, false, "R10"⟩] "A1").1.lookup "A1" = some false)
  ∧ ((toggleInSection [("A1", true)]
        [⟨"A1", 60, "Y12", true, 120, 28, -92, false, "R10"⟩] "A1").1.lookup "B2" = none)
  ∧ (((toggleInSection [("A1", true)]
        [⟨"A1", 60, "Y12", true, 120, 28, -92, false, "R10"⟩] "A1").2.get
          ⟨0, by decide⟩).effectiveRequired = 60) := by
  have h := C8_amended [("A1", true)]
    [⟨"A1", 60, "Y12", true, 120, 28, -92, false, "R10"⟩] "A1"
  refine ⟨?_, ?_, ?_⟩
  · simpa using h.1
  · exact (h.2.1 "B2" (by decide)).trans (by decide)
  · have h4 := (h.2.2.2 0 (by decide) (by decide)).1 (by decide)
    simpa using h4.2.1

/-- Two ignore stores that agree on every mark produce the same mismatch
report. -/
lemma mismatchedDisplay_congr (rows : List Row) (s1 s2 : List (String × Bool))
    (h : ∀ m, isIgnored s1 m = isIgnored s2 m) :
    mismatchedDisplay rows s1 = mismatchedDisplay rows s2 := by
  have hl : mismatchedMarkList rows s1 = mismatchedMarkList rows s2 := by
    unfold mismatchedMarkList
    congr 1
    apply List.filter_congr
    intro r _
    rw [h r.mark]
  rw [mismatchedDisplay, mismatchedDisplay, mismatchedBars, mismatchedBars, hl]

/-- Claim C10: toggling the ignore flag of a mark twice stores back the
mark's previous effective value, so every mark's effective flag — and hence
the mismatch report — is restored; a single toggle never changes the entry
of any other mark. -/
theorem C10_toggle_involution (s : List (String × Bool)) (rows : List Row) (mark : String) :
    ((toggleIgnore (toggleIgnore s mark) mark).lookup mark = some (isIgnored s mark))
  ∧ (∀ m', isIgnored (toggleIgnore (toggleIgnore s mark) mark) m' = isIgnored s m')
  ∧ (mismatchedDisplay rows (toggleIgnore (toggleIgnore s mark) mark) =
      mismatchedDisplay rows s)
  ∧ (∀ m', m' ≠ mark → (toggleIgnore s mark).lookup m' = s.lookup m') := by
  have hself : ∀ m', isIgnored (toggleIgnore (toggleIgnore s mark) mark) m' = isIgnored s m' := by
    intro m'
    by_cases h : m' = mark
    · subst h
      rw [toggleIgnore, isIgnored, lookup_setEntry_self]
      rw [toggleIgnore, isIgnored, lookup_setEntry_self]
      simp [isIgnored]
    · rw [toggleIgnore, isIgnored, lookup_setEntry_other _ _ _ _ h]
      rw [toggleIgnore, lookup_setEntry_other _ _ _ _ h, isIgnored]
  refine ⟨?_, hself, ?_, ?_⟩
  · rw [toggleIgnore, lookup_setEntry_self]
    rw [toggleIgnore, isIgnored, lookup_setEntry_self]
    simp [isIgnored]
  · exact mismatchedDisplay_congr rows _ s hself
  · intro m' h
    exact lookup_setEntry_other s mark m' _ h

/-- Claim C10 witness: with `CL1` ignored, toggling `CL1` twice stores back
`true`, and a single toggle leaves the (absent) entry of `A1` untouched. -/
theorem C10_toggle_involution_witness :
    ((toggleIgnore (toggleIgnore [("CL1", true)] "CL1") "CL1").lookup "CL1" = some true)
  ∧ ((toggleIgnore [("CL1", true)] "CL1").lookup "A1" = none) := by
  have h := C10_toggle_involution [("CL1", true)] [] "CL1"
  refine ⟨?_, ?_⟩
  · simpa using h.1
  · exact (h.2.2.2 "A1" (by decide)).trans (by decide)

/-- Joining a nonempty list of nonempty strings with newlines is nonempty. -/
lemma joinNL_ne_empty : ∀ (l : List String), l ≠ [] → (∀ m ∈ l, m ≠ "") → joinNL l ≠ ""
  | [], h1, _ => absurd rfl h1
  | [m], _, h2 => by simpa [joinNL] using h2 m (List.mem_singleton.mpr rfl)
  | m :: m2 :: rest, _, _ => by
    intro hc
    have h1 : joinNL (m :: m2 :: rest) = m ++ "\n" ++ joinNL (m2 :: rest) := rfl
    rw [h1] at hc
    have h2 := congrArg String.length hc
    rw [String.length_append, String.length_append] at h2
    have hnl : ("\n" : String).length = 1 := rfl
    have hempty : ("" : String).length = 0 := rfl
    rw [hnl, hempty] at h2
    omega

/-- Claim C3: a mark is listed in the mismatch report exactly when some row
with that mark has a nonzero difference or a diameter mismatch and the mark
is not ignored; the report preserves row order, joins the qualifying marks
with newlines, and renders the literal string `"None"` exactly when no row
qualifies. -/
theorem C3_mismatch_report (results : List Row) (ignoredRows : List (String × Bool))
    (hmarks : ∀ r ∈ results, r.mark ≠ "") :
    (∀ m, m ∈ mismatchedMarkList results ignoredRows ↔
        ∃ r, r ∈ results ∧ r.mark = m ∧ (r.diff ≠ 0 ∨ r.diameterMatch = false)
          ∧ isIgnored ignoredRows m = false)
  ∧ (mismatchedMarkList results ignoredRows = [] →
      mismatchedDisplay results ignoredRows = "None")
  ∧ (mismatchedMarkList results ignoredRows ≠ [] →
      mismatchedDisplay results ignoredRows = joinNL (mismatchedMarkList results ignoredRows)) := by
  refine ⟨?_, ?_, ?_⟩
  · intro m
    constructor
    · intro hm
      rw [mismatchedMarkList, List.mem_map] at hm
      obtain ⟨r, hr, hrm⟩ := hm
      rw [List.mem_filter] at hr
      obtain ⟨hmem, hcond⟩ := hr
      rw [Bool.and_eq_true, Bool.or_eq_true] at hcond
      refine ⟨r, hmem, hrm, ?_, ?_⟩
      · rcases hcond.1 with h | h
        · left
          simpa using h
        · right
          simpa using h
      · rw [← hrm]
        simpa using hcond.2
    · intro ⟨r, hmem, hrm, hcond, hign⟩
      rw [mismatchedMarkList, List.mem_map]
      refine ⟨r, ?_, hrm⟩
      rw [List.mem_filter]
      refine ⟨hmem, ?_⟩
      rw [Bool.and_eq_true, Bool.or_eq_true]
      constructor
      · rcases hcond with h | h
        · left
          simpa using h
        · right
          simpa using h
      · rw [hrm]
        simpa using hign
  · intro h
    rw [mismatchedDisplay, mismatchedBars, h]
    simp [joinNL]
  · intro h
    have hall : ∀ m ∈ mismatchedMarkList results ignoredRows, m ≠ "" := by
      intro m hm
      rw [mismatchedMarkList, List.mem_map] at hm
      obtain ⟨r, hr, hrm⟩ := hm
      rw [List.mem_filter] at hr
      exact hrm ▸ hmarks r hr.1
    have hne := joinNL_ne_empty _ h hall
    rw [mismatchedDisplay, mismatchedBars]
    rw [if_neg hne]

/-- Claim C3 witness: one row with a nonzero difference and mismatched
diameter, not ignored, yields the report `"CL1"`; when it is ignored the
list is empty and the report is `"None"`. -/
theorem C3_mismatch_report_witness :
    (("CL1" : String) ∈ mismatchedMarkList
        [⟨"CL1", 60, "Y12", 28, "R10", -32, false⟩] []
      ↔ ∃ r, r ∈ [(⟨"CL1", 60, "Y12", 28, "R10", -32, false⟩ : Row)] ∧ r.mark = "CL1"
          ∧ (r.diff ≠ 0 ∨ r.diameterMatch = false) ∧ isIgnored [] "CL1" = false)
  ∧ (mismatchedDisplay [⟨"CL1", 60, "Y12", 28, "R10", -32, false⟩] [("CL1", true)] = "None")
  ∧ (mismatchedDisplay [⟨"CL1", 60, "Y12", 28, "R10", -32, false⟩] [] =
      joinNL (mismatchedMarkList [⟨"CL1", 60, "Y12", 28, "R10", -32, false⟩] [])) := by
  refine ⟨?_, ?_, ?_⟩
  · exact (C3_mismatch_report [⟨"CL1", 60, "Y12", 28, "R10", -32, false⟩] []
      (by decide)).1 "CL1"
  · exact (C3_mismatch_report [⟨"CL1", 60, "Y12", 28, "R10", -32, false⟩] [("CL1", true)]
      (by decide)).2.1 (by decide)
  · exact (C3_mismatch_report [⟨"CL1", 60, "Y12", 28, "R10", -32, false⟩] []
      (by decide)).2.2 (by decide)

/-- The comparator is antisymmetric: swapping the arguments negates it. -/
lemma jsCompareChars_neg (as : List Char) : ∀ bs, jsCompareChars as bs = -jsCompareChars bs as := by
  induction as with
  | nil => intro bs; cases bs <;> simp [jsCompareChars]
  | cons a as ih =>
    intro bs
    cases bs with
    | nil => simp [jsCompareChars]
    | cons b bs =>
      by_cases h1 : a < b
      · have h2 : ¬ b < a := asymm h1
        simp [jsCompareChars, h1, h2]
      · by_cases h2 : b < a
        · simp [jsCompareChars, h1, h2]
        · simp [jsCompareChars, h1, h2, ih bs]

/-- A non-positive comparator value means the first string is not
lexicographically greater. -/
lemma jsCompareChars_nonpos_iff (as : List Char) :
    ∀ bs, jsCompareChars as bs ≤ 0 ↔ ¬ List.Lex (· < ·) bs as := by
  induction as with
  | nil =>
    intro bs
    cases bs with
    | nil => simp [jsCompareChars]
    | cons b bs => simp [jsCompareChars]
  | cons a as ih =>
    intro bs
    cases bs with
    | nil =>
      apply iff_of_false
      · simp [jsCompareChars]
      · exact not_not_intro List.Lex.nil
    | cons b bs =>
      by_cases h1 : a < b
      · simp only [jsCompareChars, if_pos h1]
        apply iff_of_true (by norm_num)
        intro hlex
        cases hlex with
        | cons h => exact absurd h1 (lt_irrefl _)
        | rel h => exact absurd h1 (asymm h)
      · by_cases h2 : b < a
        · simp only [jsCompareChars, if_neg h1, if_pos h2]
          apply iff_of_false (by norm_num)
          exact not_not_intro (List.Lex.rel h2)
        · have heq : a = b := le_antisymm (le_of_not_lt h2) (le_of_not_lt h1)
          subst heq
          simp only [jsCompareChars, if_neg h1, if_neg h2]
          rw [ih bs, List.Lex.cons_iff]

/-- Bridge between the JavaScript comparator and the lexicographic order on
strings. -/
lemma jsCompareStrings_nonpos_iff (a b : String) : jsCompareStrings a b ≤ 0 ↔ a ≤ b := by
  rw [String.le_iff_toList_le, jsCompareStrings, jsCompareChars_nonpos_iff]
  show ¬ b.toList < a.toList ↔ a.toList ≤ b.toList
  exact not_lt

/-- Inserting into the sorted prefix produces a permutation. -/
lemma insertRow_perm (a : Row) (l : List Row) : (insertRow a l).Perm (a :: l) := by
  induction l with
  | nil => exact List.Perm.refl _
  | cons b bs ih =>
    rw [insertRow]
    split
    · exact List.Perm.refl _
    · exact (ih.cons b).trans (List.Perm.swap a b bs)

/-- Inserting into a mark-sorted list keeps it mark-sorted. -/
lemma insertRow_sorted (a : Row) (l : List Row)
    (h : List.Pairwise (fun x y : Row => x.mark ≤ y.mark) l) :
    List.Pairwise (fun x y : Row => x.mark ≤ y.mark) (insertRow a l) := by
  induction l with
  | nil => simp [insertRow]
  | cons b bs ih =>
    rcases List.pairwise_cons.mp h with ⟨hb, hbs⟩
    rw [insertRow]
    split
    · rename_i hc
      have hab : a.mark ≤ b.mark := (jsCompareStrings_nonpos_iff _ _).mp (le_of_lt hc)
      refine List.pairwise_cons.mpr ⟨?_, h⟩
      intro x hx
      rcases List.mem_cons.mp hx with rfl | hx
      · exact hab
      · exact le_trans hab (hb x hx)
    · rename_i hc
      have hba : b.mark ≤ a.mark := by
        have h0 : 0 ≤ jsCompareStrings a.mark b.mark := not_lt.mp hc
        have hneg : jsCompareStrings b.mark a.mark ≤ 0 := by
          rw [jsCompareStrings, jsCompareChars_neg]
          rw [jsCompareStrings] at h0
          omega
        exact (jsCompareStrings_nonpos_iff _ _).mp hneg
      refine List.pairwise_cons.mpr ⟨?_, ih hbs⟩
      intro x hx
      rcases List.mem_cons.mp ((insertRow_perm a bs).mem_iff.mp hx) with rfl | hx
      · exact hba
      · exact hb x hx

/-- The sorted table is a permutation of the unsorted one. -/
lemma sortRows_perm (l : List Row) : (sortRows l).Perm l := by
  induction l with
  | nil => exact List.Perm.refl _
  | cons a as ih => exact (insertRow_perm a (sortRows as)).trans (ih.cons a)

/-- The sorted table is pairwise non-decreasing by mark. -/
lemma sortRows_sorted (l : List Row) :
    List.Pairwise (fun x y : Row => x.mark ≤ y.mark) (sortRows l) := by
  induction l with
  | nil => simp [sortRows]
  | cons a as ih => exact insertRow_sorted a (sortRows as) ih

/-- Claim C1 counterexample: a required text whose two lines carry the same
mark `CL1` produces two table rows with mark `CL1`: the reconciliation emits
one row per required *record*, not one per distinct mark, so the output
marks are not unique. -/
theorem C1_counterexample :
    (handleCompare "60 Y12 3550 60 CL1 61 Y12 3550 60 CL1" "" false).map Row.mark =
      ["CL1", "CL1"]
  ∧ ¬ ((handleCompare "60 Y12 3550 60 CL1 61 Y12 3550 60 CL1" "" false).map Row.mark).Nodup := by
  constructor
  · decide
  · decide

/-- Claim C1 amended: the multiset of output marks equals the multiset of
marks of the required records — one row per required record occurrence (so
duplicate required marks give duplicate rows), every required mark appears,
and no tally-only mark is ever surfaced as a row. -/
theorem C1_amended (text1 text2 : String) (flag : Bool) :
    ((handleCompare text1 text2 flag).map Row.mark).Perm
      ((extractPage1Data text1).map P1Rec.mark) := by
  show ((sortRows ((extractPage1Data text1).map
      (mkRowA (page2Grouped (extractPage2Data text2)) flag))).map Row.mark).Perm _
  refine ((sortRows_perm _).map Row.mark).trans ?_
  rw [List.map_map]
  have hmk : (Row.mark ∘ mkRowA (page2Grouped (extractPage2Data text2)) flag) = P1Rec.mark := by
    funext item
    rfl
  rw [hmk]

/-- Claim C9: the extractors and the reconciliation are total functions of
the input strings (they are plain functions in this embedding), and the
empty string yields the empty record sequence and the empty row sequence
rather than an error. -/
theorem C9_total_empty :
    extractPage1Data "" = []
  ∧ extractPage2Data "" = []
  ∧ extractPage2DataTol "" = []
  ∧ (∀ flag, handleCompare "" "" flag = []) := by
  refine ⟨rfl, rfl, rfl, ?_⟩
  intro flag
  rfl

/-- An uppercase letter is not a digit. -/
lemma upper_not_digit {c : Char} (h : isUpperChar c = true) : isDigitChar c = false := by
  simp [isUpperChar] at h
  simp [isDigitChar]
  omega

/-- An uppercase letter is not whitespace. -/
lemma upper_not_space {c : Char} (h : isUpperChar c = true) : isSpaceChar c = false := by
  simp [isUpperChar] at h
  simp [isSpaceChar]
  omega

/-- A digit is not an uppercase letter. -/
lemma digit_not_upper {c : Char} (h : isDigitChar c = true) : isUpperChar c = false := by
  simp [isDigitChar] at h
  simp [isUpperChar]
  omega

/-- A digit is not whitespace. -/
lemma digit_not_space {c : Char} (h : isDigitChar c = true) : isSpaceChar c = false := by
  simp [isDigitChar] at h
  simp [isSpaceChar]
  omega

/-- A whitespace character is not a digit. -/
lemma space_not_digit {c : Char} (h : isSpaceChar c = true) : isDigitChar c = false := by
  simp [isSpaceChar] at h
  simp [isDigitChar]
  omega

/-- A whitespace character is not a word character. -/
lemma space_not_word {c : Char} (h : isSpaceChar c = true) : isWordChar c = false := by
  simp [isSpaceChar] at h
  simp [isWordChar, isDigitChar, isUpperChar]
  omega

/-- A nonempty list is not `isEmpty`. -/
lemma isEmpty_false_of_ne_nil {α : Type} {l : List α} (h : l ≠ []) : l.isEmpty = false := by
  cases l with
  | nil => exact absurd rfl h
  | cons a as => rfl

/-- `takeWhile` takes exactly a fully-satisfying prefix up to a failing head. -/
lemma takeWhile_append_all {p : Char → Bool} (xs : List Char) (y : Char) (ys : List Char)
    (hxs : ∀ c ∈ xs, p c = true) (hy : p y = false) :
    ((xs ++ y :: ys).takeWhile p) = xs := by
  induction xs with
  | nil => simp [List.takeWhile_cons, hy]
  | cons x xs ih =>
    have hx := hxs x (List.mem_cons_self x xs)
    simp only [List.cons_append, List.takeWhile_cons, hx, if_true]
    rw [ih (fun c hc => hxs c (List.mem_cons_of_mem x hc))]

/-- `dropWhile` drops exactly a fully-satisfying prefix up to a failing head. -/
lemma dropWhile_append_all {p : Char → Bool} (xs : List Char) (y : Char) (ys : List Char)
    (hxs : ∀ c ∈ xs, p c = true) (hy : p y = false) :
    ((xs ++ y :: ys).dropWhile p) = y :: ys := by
  induction xs with
  | nil => simp [List.dropWhile_cons, hy]
  | cons x xs ih =>
    have hx := hxs x (List.mem_cons_self x xs)
    simp only [List.cons_append, List.dropWhile_cons, hx, if_true]
    exact ih (fun c hc => hxs c (List.mem_cons_of_mem x hc))

/-- `takeWhile` over a fully-satisfying list takes everything. -/
lemma takeWhile_all {p : Char → Bool} (xs : List Char) (hxs : ∀ c ∈ xs, p c = true) :
    xs.takeWhile p = xs := by
  induction xs with
  | nil => rfl
  | cons x xs ih =>
    have hx := hxs x (List.mem_cons_self x xs)
    simp only [List.takeWhile_cons, hx, if_true]
    rw [ih (fun c hc => hxs c (List.mem_cons_of_mem x hc))]

/-- `dropWhile` over a fully-satisfying list drops everything. -/
lemma dropWhile_all {p : Char → Bool} (xs : List Char) (hxs : ∀ c ∈ xs, p c = true) :
    xs.dropWhile p = [] := by
  induction xs with
  | nil => rfl
  | cons x xs ih =>
    have hx := hxs x (List.mem_cons_self x xs)
    simp only [List.dropWhile_cons, hx, if_true]
    exact ih (fun c hc => hxs c (List.mem_cons_of_mem x hc))

/-- `dropWhile` never lengthens a list. -/
lemma dropWhile_length_le {p : Char → Bool} (l : List Char) :
    (l.dropWhile p).length ≤ l.length := by
  induction l with
  | nil => simp
  | cons c cs ih =>
    rw [List.dropWhile_cons]
    split
    · exact le_trans ih (by simp)
    · simp

/-- `dropWhile` strictly shortens a list whose head satisfies the predicate. -/
lemma dropWhile_length_lt {p : Char → Bool} (l : List Char) (h : l.takeWhile p ≠ []) :
    (l.dropWhile p).length < l.length := by
  cases l with
  | nil => exact absurd rfl h
  | cons c cs =>
    by_cases hc : p c = true
    · rw [List.dropWhile_cons, if_pos hc]
      exact lt_of_le_of_lt (dropWhile_length_le cs) (by simp)
    · rw [List.takeWhile_cons] at h
      rw [if_neg hc] at h
      exact absurd rfl h


/-- A successful strict-pattern match consumes at least one character. -/
lemma matchPage2StrictAt_shrink (pW : Bool) (l : List Char) (p : P2Rec × List Char)
    (h : matchPage2StrictAt pW l = some p) : p.2.length < l.length := by
  dsimp only [matchPage2StrictAt] at h
  split at h
  · simp at h
  · split at h
    · simp at h
    · rename_i hd1
      split at h
      · simp at h
      · rename_i c r2 hr1
        split at h
        · split at h
          · simp at h
          · split at h
            · rename_i r4 hr3
              split at h
              · simp at h
              · split at h
                · simp at h
                · have hr2len : r2.length < l.length := by
                    have hle := @dropWhile_length_le isDigitChar l
                    rw [hr1] at hle
                    simp at hle
                    omega
                  have hr4len : r4.length < r2.length := by
                    have hle := @dropWhile_length_le isDigitChar r2
                    rw [hr3] at hle
                    simp at hle
                    omega
                  have hr5len : (List.dropWhile isUpperChar r4).length ≤ r4.length :=
                    @dropWhile_length_le isUpperChar r4
                  have hr6len :
                      (List.dropWhile isDigitChar (List.dropWhile isUpperChar r4)).length ≤
                        (List.dropWhile isUpperChar r4).length :=
                    @dropWhile_length_le isDigitChar (List.dropWhile isUpperChar r4)
                  split at h
                  · rename_i r7 hr6
                    have hr7len : r7.length <
                        (List.dropWhile isDigitChar (List.dropWhile isUpperChar r4)).length := by
                      rw [hr6]
                      simp
                    split at h
                    · rw [Option.some_inj] at h
                      subst h
                      show (List.dropWhile isDigitChar r7).length < l.length
                      have hx := @dropWhile_length_le isDigitChar r7
                      omega
                    · split at h
                      · rw [Option.some_inj] at h
                        subst h
                        show (List.dropWhile isDigitChar (List.dropWhile isUpperChar r4)).length <
                          l.length
                        omega
                      · simp at h
                  · split at h
                    · rw [Option.some_inj] at h
                      subst h
                      show (List.dropWhile isDigitChar (List.dropWhile isUpperChar r4)).length <
                        l.length
                      omega
                    · simp at h
            · simp at h
        · simp at h

/-- A successful tolerant-pattern match consumes at least one character. -/
lemma matchPage2TolAt_shrink (pW : Bool) (l : List Char) (p : P2Rec × List Char)
    (h : matchPage2TolAt pW l = some p) : p.2.length < l.length := by
  dsimp only [matchPage2TolAt] at h
  split at h
  · simp at h
  · split at h
    · simp at h
    · rename_i hd1
      split at h
      · simp at h
      · rename_i c r3 hr2
        split at h
        · split at h
          · simp at h
          · split at h
            · rename_i r6 hr5
              split at h
              · simp at h
              · split at h
                · simp at h
                · have hr3len : r3.length < l.length := by
                    have hle1 := @dropWhile_length_le isDigitChar l
                    have hle2 := @dropWhile_length_le isSpaceChar (List.dropWhile isDigitChar l)
                    rw [hr2] at hle2
                    simp at hle2
                    omega
                  have hr6len : r6.length < r3.length := by
                    have hle1 := @dropWhile_length_le isDigitChar r3
                    have hle2 := @dropWhile_length_le isSpaceChar (List.dropWhile isDigitChar r3)
                    rw [hr5] at hle2
                    simp at hle2
                    omega
                  have hr7len : (List.dropWhile isSpaceChar r6).length ≤ r6.length :=
                    @dropWhile_length_le isSpaceChar r6
                  have hr8len :
                      (List.dropWhile isUpperChar (List.dropWhile isSpaceChar r6)).length ≤
                        (List.dropWhile isSpaceChar r6).length :=
                    @dropWhile_length_le isUpperChar (List.dropWhile isSpaceChar r6)
                  have hr9len :
                      (List.dropWhile isDigitChar
                        (List.dropWhile isUpperChar (List.dropWhile isSpaceChar r6))).length ≤
                        (List.dropWhile isUpperChar (List.dropWhile isSpaceChar r6)).length :=
                    @dropWhile_length_le isDigitChar
                      (List.dropWhile isUpperChar (List.dropWhile isSpaceChar r6))
                  split at h
                  · rename_i r10 hr9
                    have hr10len : r10.length <
                        (List.dropWhile isDigitChar
                          (List.dropWhile isUpperChar (List.dropWhile isSpaceChar r6))).length := by
                      rw [hr9]
                      simp
                    have hr11len : (List.dropWhile isSpaceChar r10).length ≤ r10.length :=
                      @dropWhile_length_le isSpaceChar r10
                    split at h
                    · rw [Option.some_inj] at h
                      subst h
                      show (List.dropWhile isDigitChar (List.dropWhile isSpaceChar r10)).length <
                        l.length
                      have hx := @dropWhile_length_le isDigitChar (List.dropWhile isSpaceChar r10)
                      omega
                    · split at h
                      · rw [Option.some_inj] at h
                        subst h
                        show (List.dropWhile isDigitChar
                          (List.dropWhile isUpperChar (List.dropWhile isSpaceChar r6))).length <
                            l.length
                        omega
                      · simp at h
                  · split at h
                    · rw [Option.some_inj] at h
                      subst h
                      show (List.dropWhile isDigitChar
                        (List.dropWhile isUpperChar (List.dropWhile isSpaceChar r6))).length <
                          l.length
                      omega
                    · simp at h
            · simp at h
        · simp at h

/-- With enough fuel (at least the text length) the scanner's result does not
depend on the exact fuel, because every match consumes at least one
character. -/
lemma scanFuel_congr {α : Type} (m : Bool → List Char → Option (α × List Char))
    (hm : ∀ pW l p, m pW l = some p → p.2.length < l.length) :
    ∀ (n fuel1 fuel2 : Nat) (pW : Bool) (l : List Char), l.length ≤ n →
      l.length ≤ fuel1 → l.length ≤ fuel2 →
      scanFuel m fuel1 pW l = scanFuel m fuel2 pW l := by
  intro n
  induction n with
  | zero =>
    intro fuel1 fuel2 pW l hn h1 h2
    have hl : l = [] := List.length_eq_zero.mp (Nat.le_zero.mp hn)
    subst hl
    cases fuel1 <;> cases fuel2 <;> rfl
  | succ n ih =>
    intro fuel1 fuel2 pW l hn h1 h2
    cases l with
    | nil => cases fuel1 <;> cases fuel2 <;> rfl
    | cons c cs =>
      cases fuel1 with
      | zero => simp at h1
      | succ f1 =>
        cases fuel2 with
        | zero => simp at h2
        | succ f2 =>
          cases hm' : m pW (c :: cs) with
          | some pr =>
            obtain ⟨r, rest⟩ := pr
            have hlt := hm pW (c :: cs) (r, rest) hm'
            simp only [List.length_cons] at hlt hn h1 h2
            simp only [scanFuel, hm']
            rw [ih f1 f2 true rest (by omega) (by omega) (by omega)]
          | none =>
            simp only [List.length_cons] at hn h1 h2
            simp only [scanFuel, hm']
            exact ih f1 f2 (isWordChar c) cs (by omega) (by omega) (by omega)

/-- One step of `scanAll` on a successful match. -/
lemma scanAll_cons_some {α : Type} (m : Bool → List Char → Option (α × List Char))
    (hm : ∀ pW l p, m pW l = some p → p.2.length < l.length)
    (pW : Bool) (c : Char) (cs : List Char) (r : α) (rest : List Char)
    (h : m pW (c :: cs) = some (r, rest)) :
    scanAll m pW (c :: cs) = r :: scanAll m true rest := by
  have hlt := hm pW (c :: cs) (r, rest) h
  simp only [List.length_cons] at hlt
  rw [scanAll, scanAll]
  show scanFuel m (cs.length + 1) pW (c :: cs) = _
  simp only [scanFuel, h]
  congr 1
  exact scanFuel_congr m hm rest.length cs.length rest.length true rest le_rfl (by omega) le_rfl

/-- One step of `scanAll` on a failed match. -/
lemma scanAll_cons_none {α : Type} (m : Bool → List Char → Option (α × List Char))
    (pW : Bool) (c : Char) (cs : List Char)
    (h : m pW (c :: cs) = none) :
    scanAll m pW (c :: cs) = scanAll m (isWordChar c) cs := by
  rw [scanAll, scanAll]
  show scanFuel m (cs.length + 1) pW (c :: cs) = _
  simp only [scanFuel, h]

/-- A tally token of the strict grammar: digits, a diameter (one uppercase
letter and digits), a dash, a mark (one to three uppercase letters and
digits) and an optional `-digits` suffix. -/
structure Tok where
  cnt : List Char
  diaL : Char
  diaD : List Char
  mks : List Char
  mkd : List Char
  suf : Option (List Char)

/-- The characters of the optional suffix (`-digits`, or nothing). -/
def Tok.sufChars (t : Tok) : List Char :=
  match t.suf with
  | none => []
  | some d => '-' :: d

/-- The text of a token. -/
def Tok.chars (t : Tok) : List Char :=
  t.cnt ++ (t.diaL :: (t.diaD ++ ('-' :: (t.mks ++ (t.mkd ++ t.sufChars)))))

/-- The record a token denotes. -/
def Tok.toRec (t : Tok) : P2Rec :=
  { count := digitsToNat t.cnt, diameter := String.mk (t.diaL :: t.diaD),
    mark := String.mk (t.mks ++ t.mkd) }

/-- Wellformedness of a token under the strict grammar. -/
def Tok.WF (t : Tok) : Prop :=
  t.cnt ≠ [] ∧ (∀ c ∈ t.cnt, isDigitChar c = true)
  ∧ isUpperChar t.diaL = true
  ∧ t.diaD ≠ [] ∧ (∀ c ∈ t.diaD, isDigitChar c = true)
  ∧ t.mks ≠ [] ∧ t.mks.length ≤ 3 ∧ (∀ c ∈ t.mks, isUpperChar c = true)
  ∧ t.mkd ≠ [] ∧ (∀ c ∈ t.mkd, isDigitChar c = true)
  ∧ (∀ d, t.suf = some d → d ≠ [] ∧ (∀ c ∈ d, isDigitChar c = true))

/-- The text after a token must be empty or start with whitespace. -/
def spaceOrEnd : List Char → Prop
  | [] => True
  | c :: _ => isSpaceChar c = true

/-- `dropWhile` does nothing when the head already fails the predicate. -/
lemma dropWhile_cons_neg {p : Char → Bool} {c : Char} (cs : List Char) (h : p c = false) :
    (c :: cs).dropWhile p = c :: cs := by
  simp [List.dropWhile_cons, h]

/-- The strict matcher consumes exactly one wellformed strict token when the
following text is empty or starts with whitespace, and captures the token's
record. -/
lemma matchPage2StrictAt_token (t : Tok) (rest : List Char) (hwf : t.WF)
    (hrest : spaceOrEnd rest) :
    matchPage2StrictAt false (t.chars ++ rest) = some (t.toRec, rest) := by
  obtain ⟨hcnt, hcntd, hdiaL, hdiaD, hdiaDd, hmks, hmks3, hmksu, hmkd, hmkdd, hsuf⟩ := hwf
  obtain ⟨md, mds, hmd⟩ := List.exists_cons_of_ne_nil hmkd
  have htext : t.chars ++ rest =
      t.cnt ++ (t.diaL :: (t.diaD ++ ('-' :: (t.mks ++ (t.mkd ++ (t.sufChars ++ rest)))))) := by
    simp [Tok.chars, List.append_assoc]
  have hA1 : (t.cnt ++ (t.diaL :: (t.diaD ++ ('-' :: (t.mks ++ (t.mkd ++ (t.sufChars ++ rest))))))).takeWhile isDigitChar = t.cnt :=
    takeWhile_append_all t.cnt t.diaL _ hcntd (upper_not_digit hdiaL)
  have hA2 : (t.cnt ++ (t.diaL :: (t.diaD ++ ('-' :: (t.mks ++ (t.mkd ++ (t.sufChars ++ rest))))))).dropWhile isDigitChar = t.diaL :: (t.diaD ++ ('-' :: (t.mks ++ (t.mkd ++ (t.sufChars ++ rest))))) :=
    dropWhile_append_all t.cnt t.diaL _ hcntd (upper_not_digit hdiaL)
  have hB1 : (t.diaD ++ ('-' :: (t.mks ++ (t.mkd ++ (t.sufChars ++ rest))))).takeWhile isDigitChar = t.diaD :=
    takeWhile_append_all t.diaD '-' _ hdiaDd (by decide)
  have hB2 : (t.diaD ++ ('-' :: (t.mks ++ (t.mkd ++ (t.sufChars ++ rest))))).dropWhile isDigitChar = '-' :: (t.mks ++ (t.mkd ++ (t.sufChars ++ rest))) :=
    dropWhile_append_all t.diaD '-' _ hdiaDd (by decide)
  have hmd0 : isDigitChar md = true := hmkdd md (by rw [hmd]; exact List.mem_cons_self md mds)
  have hC1 : (t.mks ++ (t.mkd ++ (t.sufChars ++ rest))).takeWhile isUpperChar = t.mks := by
    rw [hmd]
    show (t.mks ++ (md :: (mds ++ (t.sufChars ++ rest)))).takeWhile isUpperChar = t.mks
    exact takeWhile_append_all t.mks md _ hmksu (digit_not_upper hmd0)
  have hC2 : (t.mks ++ (t.mkd ++ (t.sufChars ++ rest))).dropWhile isUpperChar = t.mkd ++ (t.sufChars ++ rest) := by
    rw [hmd]
    show (t.mks ++ (md :: (mds ++ (t.sufChars ++ rest)))).dropWhile isUpperChar = _
    rw [dropWhile_append_all t.mks md _ hmksu (digit_not_upper hmd0)]
    simp
  have hcnt0 : t.cnt.isEmpty = false := isEmpty_false_of_ne_nil hcnt
  have hdiaD0 : t.diaD.isEmpty = false := isEmpty_false_of_ne_nil hdiaD
  have hmks0 : t.mks.isEmpty = false := isEmpty_false_of_ne_nil hmks
  have hmks30 : decide (3 < t.mks.length) = false := decide_eq_false_iff_not.mpr (not_lt.mpr hmks3)
  have hmkd0 : t.mkd.isEmpty = false := isEmpty_false_of_ne_nil hmkd
  rw [htext]
  cases hs : t.suf with
  | none =>
    have hsc : t.sufChars = [] := by rw [Tok.sufChars, hs]
    cases rest with
    | nil =>
      have hD1 : (t.mkd ++ (t.sufChars ++ ([] : List Char))).takeWhile isDigitChar = t.mkd := by
        rw [hsc]
        simp only [List.nil_append, List.append_nil]
        exact takeWhile_all t.mkd hmkdd
      have hD2 : (t.mkd ++ (t.sufChars ++ ([] : List Char))).dropWhile isDigitChar = [] := by
        rw [hsc]
        simp only [List.nil_append, List.append_nil]
        exact dropWhile_all t.mkd hmkdd
      simp only [matchPage2StrictAt, hA1, hA2, hB1, hB2, hC1, hC2, hD1, hD2, hcnt0, hdiaD0,
        hmks0, hmks30, hmkd0, hdiaL, Tok.toRec, boundaryOK, Bool.false_eq_true, if_false,
        Bool.or_self, if_true]
    | cons rc rs =>
      have hrc : isSpaceChar rc = true := hrest
      have hD1 : (t.mkd ++ (t.sufChars ++ (rc :: rs))).takeWhile isDigitChar = t.mkd := by
        rw [hsc]
        simp only [List.nil_append]
        exact takeWhile_append_all t.mkd rc rs hmkdd (space_not_digit hrc)
      have hD2 : (t.mkd ++ (t.sufChars ++ (rc :: rs))).dropWhile isDigitChar = rc :: rs := by
        rw [hsc]
        simp only [List.nil_append]
        exact dropWhile_append_all t.mkd rc rs hmkdd (space_not_digit hrc)
      have hrcd : rc ≠ '-' := by
        intro hx
        rw [hx] at hrc
        simp [isSpaceChar] at hrc
      have hrcw : isWordChar rc = false := space_not_word hrc
      simp only [matchPage2StrictAt, hA1, hA2, hB1, hB2, hC1, hC2, hD1, hD2, hcnt0, hdiaD0,
        hmks0, hmks30, hmkd0, hdiaL, Tok.toRec, boundaryOK, Bool.false_eq_true, if_false,
        Bool.or_self, if_true]
      split
      · rename_i r7 heq
        exact absurd (List.cons.injEq .. ▸ heq) (by simp [hrcd])
      · simp [hrcw]
  | some d =>
    have hsc : t.sufChars = '-' :: d := by rw [Tok.sufChars, hs]
    obtain ⟨hd, hdd⟩ := hsuf d hs
    have hD1 : (t.mkd ++ (t.sufChars ++ rest)).takeWhile isDigitChar = t.mkd := by
      rw [hsc]
      show (t.mkd ++ ('-' :: (d ++ rest))).takeWhile isDigitChar = t.mkd
      exact takeWhile_append_all t.mkd '-' _ hmkdd (by decide)
    have hD2 : (t.mkd ++ (t.sufChars ++ rest)).dropWhile isDigitChar = '-' :: (d ++ rest) := by
      rw [hsc]
      show (t.mkd ++ ('-' :: (d ++ rest))).dropWhile isDigitChar = _
      exact dropWhile_append_all t.mkd '-' _ hmkdd (by decide)
    have hd0 : d.isEmpty = false := isEmpty_false_of_ne_nil hd
    cases rest with
    | nil =>
      have hE1 : (d ++ ([] : List Char)).takeWhile isDigitChar = d := by
        simp only [List.append_nil]
        exact takeWhile_all d hdd
      have hE2 : (d ++ ([] : List Char)).dropWhile isDigitChar = [] := by
        simp only [List.append_nil]
        exact dropWhile_all d hdd
      simp only [matchPage2StrictAt, hA1, hA2, hB1, hB2, hC1, hC2, hD1, hD2, hE1, hE2, hcnt0,
        hdiaD0, hmks0, hmks30, hmkd0, hd0, hdiaL, Tok.toRec, boundaryOK, Bool.false_eq_true,
        if_false, Bool.or_self, if_true, Bool.not_false, Bool.and_self]
    | cons rc rs =>
      have hrc : isSpaceChar rc = true := hrest
      have hE1 : (d ++ (rc :: rs)).takeWhile isDigitChar = d :=
        takeWhile_append_all d rc rs hdd (space_not_digit hrc)
      have hE2 : (d ++ (rc :: rs)).dropWhile isDigitChar = rc :: rs :=
        dropWhile_append_all d rc rs hdd (space_not_digit hrc)
      have hrcw : isWordChar rc = false := space_not_word hrc
      simp only [matchPage2StrictAt, hA1, hA2, hB1, hB2, hC1, hC2, hD1, hD2, hE1, hE2, hcnt0,
        hdiaD0, hmks0, hmks30, hmkd0, hd0, hdiaL, hrcw, Tok.toRec, boundaryOK,
        Bool.false_eq_true, if_false, Bool.or_self, if_true, Bool.not_false, Bool.and_self]

/-- The tolerant matcher consumes exactly one wellformed strict token when
the following text is empty or starts with whitespace, and captures the same
record as the strict matcher. -/
lemma matchPage2TolAt_token (t : Tok) (rest : List Char) (hwf : t.WF)
    (hrest : spaceOrEnd rest) :
    matchPage2TolAt false (t.chars ++ rest) = some (t.toRec, rest) := by
  obtain ⟨hcnt, hcntd, hdiaL, hdiaD, hdiaDd, hmks, hmks3, hmksu, hmkd, hmkdd, hsuf⟩ := hwf
  obtain ⟨md, mds, hmd⟩ := List.exists_cons_of_ne_nil hmkd
  obtain ⟨mk0, mks0, hmk0⟩ := List.exists_cons_of_ne_nil hmks
  have hmk0u : isUpperChar mk0 = true := hmksu mk0 (by rw [hmk0]; exact List.mem_cons_self mk0 mks0)
  have htext : t.chars ++ rest =
      t.cnt ++ (t.diaL :: (t.diaD ++ ('-' :: (t.mks ++ (t.mkd ++ (t.sufChars ++ rest)))))) := by
    simp [Tok.chars, List.append_assoc]
  have hA1 : (t.cnt ++ (t.diaL :: (t.diaD ++ ('-' :: (t.mks ++ (t.mkd ++ (t.sufChars ++ rest))))))).takeWhile isDigitChar = t.cnt :=
    takeWhile_append_all t.cnt t.diaL _ hcntd (upper_not_digit hdiaL)
  have hA2 : (t.cnt ++ (t.diaL :: (t.diaD ++ ('-' :: (t.mks ++ (t.mkd ++ (t.sufChars ++ rest))))))).dropWhile isDigitChar = t.diaL :: (t.diaD ++ ('-' :: (t.mks ++ (t.mkd ++ (t.sufChars ++ rest))))) :=
    dropWhile_append_all t.cnt t.diaL _ hcntd (upper_not_digit hdiaL)
  have hA3 : (t.diaL :: (t.diaD ++ ('-' :: (t.mks ++ (t.mkd ++ (t.sufChars ++ rest)))))).dropWhile isSpaceChar = t.diaL :: (t.diaD ++ ('-' :: (t.mks ++ (t.mkd ++ (t.sufChars ++ rest))))) :=
    dropWhile_cons_neg _ (upper_not_space hdiaL)
  have hB1 : (t.diaD ++ ('-' :: (t.mks ++ (t.mkd ++ (t.sufChars ++ rest))))).takeWhile isDigitChar = t.diaD :=
    takeWhile_append_all t.diaD '-' _ hdiaDd (by decide)
  have hB2 : (t.diaD ++ ('-' :: (t.mks ++ (t.mkd ++ (t.sufChars ++ rest))))).dropWhile isDigitChar = '-' :: (t.mks ++ (t.mkd ++ (t.sufChars ++ rest))) :=
    dropWhile_append_all t.diaD '-' _ hdiaDd (by decide)
  have hB3 : (('-' : Char) :: (t.mks ++ (t.mkd ++ (t.sufChars ++ rest)))).dropWhile isSpaceChar = '-' :: (t.mks ++ (t.mkd ++ (t.sufChars ++ rest))) :=
    dropWhile_cons_neg _ (by decide)
  have hB4 : (t.mks ++ (t.mkd ++ (t.sufChars ++ rest))).dropWhile isSpaceChar = t.mks ++ (t.mkd ++ (t.sufChars ++ rest)) := by
    rw [hmk0]
    show ((mk0 :: mks0) ++ (t.mkd ++ (t.sufChars ++ rest))).dropWhile isSpaceChar = _
    rw [List.cons_append]
    exact dropWhile_cons_neg _ (upper_not_space hmk0u)
  have hmd0 : isDigitChar md = true := hmkdd md (by rw [hmd]; exact List.mem_cons_self md mds)
  have hC1 : (t.mks ++ (t.mkd ++ (t.sufChars ++ rest))).takeWhile isUpperChar = t.mks := by
    rw [hmd]
    show (t.mks ++ (md :: (mds ++ (t.sufChars ++ rest)))).takeWhile isUpperChar = t.mks
    exact takeWhile_append_all t.mks md _ hmksu (digit_not_upper hmd0)
  have hC2 : (t.mks ++ (t.mkd ++ (t.sufChars ++ rest))).dropWhile isUpperChar = t.mkd ++ (t.sufChars ++ rest) := by
    rw [hmd]
    show (t.mks ++ (md :: (mds ++ (t.sufChars ++ rest)))).dropWhile isUpperChar = _
    rw [dropWhile_append_all t.mks md _ hmksu (digit_not_upper hmd0)]
    simp
  have hcnt0 : t.cnt.isEmpty = false := isEmpty_false_of_ne_nil hcnt
  have hdiaD0 : t.diaD.isEmpty = false := isEmpty_false_of_ne_nil hdiaD
  have hmks0e : t.mks.isEmpty = false := isEmpty_false_of_ne_nil hmks
  have hmks30 : decide (3 < t.mks.length) = false := decide_eq_false_iff_not.mpr (not_lt.mpr hmks3)
  have hmkd0 : t.mkd.isEmpty = false := isEmpty_false_of_ne_nil hmkd
  rw [htext]
  cases hs : t.suf with
  | none =>
    have hsc : t.sufChars = [] := by rw [Tok.sufChars, hs]
    cases rest with
    | nil =>
      have hD1 : (t.mkd ++ (t.sufChars ++ ([] : List Char))).takeWhile isDigitChar = t.mkd := by
        rw [hsc]
        simp only [List.nil_append, List.append_nil]
        exact takeWhile_all t.mkd hmkdd
      have hD2 : (t.mkd ++ (t.sufChars ++ ([] : List Char))).dropWhile isDigitChar = [] := by
        rw [hsc]
        simp only [List.nil_append, List.append_nil]
        exact dropWhile_all t.mkd hmkdd
      simp only [matchPage2TolAt, hA1, hA2, hA3, hB1, hB2, hB3, hB4, hC1, hC2, hD1, hD2,
        hcnt0, hdiaD0, hmks0e, hmks30, hmkd0, hdiaL, Tok.toRec, boundaryOK,
        Bool.false_eq_true, if_false, Bool.or_self, if_true]
    | cons rc rs =>
      have hrc : isSpaceChar rc = true := hrest
      have hD1 : (t.mkd ++ (t.sufChars ++ (rc :: rs))).takeWhile isDigitChar = t.mkd := by
        rw [hsc]
        simp only [List.nil_append]
        exact takeWhile_append_all t.mkd rc rs hmkdd (space_not_digit hrc)
      have hD2 : (t.mkd ++ (t.sufChars ++ (rc :: rs))).dropWhile isDigitChar = rc :: rs := by
        rw [hsc]
        simp only [List.nil_append]
        exact dropWhile_append_all t.mkd rc rs hmkdd (space_not_digit hrc)
      have hrcd : rc ≠ '-' := by
        intro hx
        rw [hx] at hrc
        simp [isSpaceChar] at hrc
      have hrcw : isWordChar rc = false := space_not_word hrc
      simp only [matchPage2TolAt, hA1, hA2, hA3, hB1, hB2, hB3, hB4, hC1, hC2, hD1, hD2,
        hcnt0, hdiaD0, hmks0e, hmks30, hmkd0, hdiaL, Tok.toRec, boundaryOK,
        Bool.false_eq_true, if_false, Bool.or_self, if_true]
      split
      · rename_i r10 heq
        exact absurd (List.cons.injEq .. ▸ heq) (by simp [hrcd])
      · simp [hrcw]
  | some d =>
    have hsc : t.sufChars = '-' :: d := by rw [Tok.sufChars, hs]
    obtain ⟨hd, hdd⟩ := hsuf d hs
    obtain ⟨d0, ds0, hd0eq⟩ := List.exists_cons_of_ne_nil hd
    have hd00 : isDigitChar d0 = true := hdd d0 (by rw [hd0eq]; exact List.mem_cons_self d0 ds0)
    have hD1 : (t.mkd ++ (t.sufChars ++ rest)).takeWhile isDigitChar = t.mkd := by
      rw [hsc]
      show (t.mkd ++ ('-' :: (d ++ rest))).takeWhile isDigitChar = t.mkd
      exact takeWhile_append_all t.mkd '-' _ hmkdd (by decide)
    have hD2 : (t.mkd ++ (t.sufChars ++ rest)).dropWhile isDigitChar = '-' :: (d ++ rest) := by
      rw [hsc]
      show (t.mkd ++ ('-' :: (d ++ rest))).dropWhile isDigitChar = _
      exact dropWhile_append_all t.mkd '-' _ hmkdd (by decide)
    have hD3 : (d ++ rest).dropWhile isSpaceChar = d ++ rest := by
      rw [hd0eq]
      rw [List.cons_append]
      exact dropWhile_cons_neg _ (digit_not_space hd00)
    have hd0 : d.isEmpty = false := isEmpty_false_of_ne_nil hd
    cases rest with
    | nil =>
      have hE1 : (d ++ ([] : List Char)).takeWhile isDigitChar = d := by
        simp only [List.append_nil]
        exact takeWhile_all d hdd
      have hE2 : (d ++ ([] : List Char)).dropWhile isDigitChar = [] := by
        simp only [List.append_nil]
        exact dropWhile_all d hdd
      simp only [matchPage2TolAt, hA1, hA2, hA3, hB1, hB2, hB3, hB4, hC1, hC2, hD1, hD2, hD3,
        hE1, hE2, hcnt0, hdiaD0, hmks0e, hmks30, hmkd0, hd0, hdiaL, Tok.toRec, boundaryOK,
        Bool.false_eq_true, if_false, Bool.or_self, if_true, Bool.not_false, Bool.and_self]
    | cons rc rs =>
      have hrc : isSpaceChar rc = true := hrest
      have hE1 : (d ++ (rc :: rs)).takeWhile isDigitChar = d :=
        takeWhile_append_all d rc rs hdd (space_not_digit hrc)
      have hE2 : (d ++ (rc :: rs)).dropWhile isDigitChar = rc :: rs :=
        dropWhile_append_all d rc rs hdd (space_not_digit hrc)
      have hrcw : isWordChar rc = false := space_not_word hrc
      simp only [matchPage2TolAt, hA1, hA2, hA3, hB1, hB2, hB3, hB4, hC1, hC2, hD1, hD2, hD3,
        hE1, hE2, hcnt0, hdiaD0, hmks0e, hmks30, hmkd0, hd0, hdiaL, hrcw, Tok.toRec,
        boundaryOK, Bool.false_eq_true, if_false, Bool.or_self, if_true, Bool.not_false,
        Bool.and_self]

/-- The leading word-boundary fails right after a word character. -/
lemma matchPage2StrictAt_prevW (l : List Char) : matchPage2StrictAt true l = none := rfl

/-- The leading word-boundary fails right after a word character. -/
lemma matchPage2TolAt_prevW (l : List Char) : matchPage2TolAt true l = none := rfl

/-- No strict match can start on a whitespace character. -/
lemma matchPage2StrictAt_space (pW : Bool) (c : Char) (cs : List Char)
    (h : isSpaceChar c = true) : matchPage2StrictAt pW (c :: cs) = none := by
  cases pW
  · simp [matchPage2StrictAt, List.takeWhile_cons, space_not_digit h]
  · rfl

/-- No tolerant match can start on a whitespace character. -/
lemma matchPage2TolAt_space (pW : Bool) (c : Char) (cs : List Char)
    (h : isSpaceChar c = true) : matchPage2TolAt pW (c :: cs) = none := by
  cases pW
  · simp [matchPage2TolAt, List.takeWhile_cons, space_not_digit h]
  · rfl

/-- Scanning pure whitespace yields no records. -/
lemma scanAll_allspace {m : Bool → List Char → Option (P2Rec × List Char)}
    (hsp : ∀ pW c cs, isSpaceChar c = true → m pW (c :: cs) = none) :
    ∀ (ws : List Char), (∀ c ∈ ws, isSpaceChar c = true) → ∀ pW, scanAll m pW ws = [] := by
  intro ws
  induction ws with
  | nil => intro _ pW; rfl
  | cons c cs ih =>
    intro hall pW
    rw [scanAll_cons_none m pW c cs (hsp pW c cs (hall c (List.mem_cons_self c cs)))]
    exact ih (fun x hx => hall x (List.mem_cons_of_mem c hx)) _

/-- A whitespace prefix is skipped by the scanner. -/
lemma scanAll_skip {m : Bool → List Char → Option (P2Rec × List Char)}
    (hsp : ∀ pW c cs, isSpaceChar c = true → m pW (c :: cs) = none) :
    ∀ (ws : List Char), (∀ c ∈ ws, isSpaceChar c = true) → ∀ (z : List Char),
      scanAll m false (ws ++ z) = scanAll m false z := by
  intro ws
  induction ws with
  | nil => intro _ z; rfl
  | cons c cs ih =>
    intro hall z
    have hc := hall c (List.mem_cons_self c cs)
    rw [List.cons_append, scanAll_cons_none m false c (cs ++ z) (hsp false c (cs ++ z) hc),
      space_not_word hc]
    exact ih (fun x hx => hall x (List.mem_cons_of_mem c hx)) z

/-- A text conforming to the strict tally grammar: tokens separated (and
optionally followed) by whitespace runs; every separator between two tokens
is nonempty. -/
def textChain : List (Tok × List Char) → List Char
  | [] => []
  | (t, ws) :: rest => t.chars ++ (ws ++ textChain rest)

/-- Wellformedness of a token chain: every token satisfies the strict
grammar, every attached whitespace run is whitespace, and only the run after
the last token may be empty. -/
def WFchain : List (Tok × List Char) → Prop
  | [] => True
  | [(t, ws)] => t.WF ∧ (∀ c ∈ ws, isSpaceChar c = true)
  | (t, ws) :: rest => t.WF ∧ (∀ c ∈ ws, isSpaceChar c = true) ∧ ws ≠ [] ∧ WFchain rest

/-- Any scanner whose matcher (a) consumes wellformed tokens followed by
whitespace-or-end, (b) fails on whitespace heads and after word characters,
and (c) always consumes at least one character, extracts from a conforming
text exactly the chain's records in order. -/
lemma scanAll_tokens {m : Bool → List Char → Option (P2Rec × List Char)}
    (hm : ∀ pW l p, m pW l = some p → p.2.length < l.length)
    (hsp : ∀ pW c cs, isSpaceChar c = true → m pW (c :: cs) = none)
    (htok : ∀ (t : Tok) (rest : List Char), t.WF → spaceOrEnd rest →
      m false (t.chars ++ rest) = some (t.toRec, rest)) :
    ∀ xs, WFchain xs → scanAll m false (textChain xs) = xs.map (fun p => p.1.toRec) := by
  intro xs
  induction xs with
  | nil => intro _; rfl
  | cons hd tl ih =>
    obtain ⟨t, ws⟩ := hd
    intro hwf
    have hparts : t.WF ∧ (∀ c ∈ ws, isSpaceChar c = true) ∧ (tl = [] ∨ ws ≠ []) ∧ WFchain tl := by
      cases tl with
      | nil => exact ⟨hwf.1, hwf.2, Or.inl rfl, trivial⟩
      | cons x xs => exact ⟨hwf.1, hwf.2.1, Or.inr hwf.2.2.1, hwf.2.2.2⟩
    obtain ⟨hWFt, hws, hlast, hWFtl⟩ := hparts
    have hsoe : spaceOrEnd (ws ++ textChain tl) := by
      cases ws with
      | nil =>
        rcases hlast with htl | hne
        · rw [htl]
          exact trivial
        · exact absurd rfl hne
      | cons w ws' => exact hws w (List.mem_cons_self w ws')
    have h1 := htok t (ws ++ textChain tl) hWFt hsoe
    have hchars : t.chars ≠ [] := by
      have hcnt := hWFt.1
      rw [Tok.chars]
      intro hx
      exact hcnt (List.append_eq_nil.mp hx).1
    obtain ⟨c0, cr, hc0⟩ := List.exists_cons_of_ne_nil hchars
    have htc : textChain ((t, ws) :: tl) = c0 :: (cr ++ (ws ++ textChain tl)) := by
      rw [textChain, hc0]
      rfl
    have h1' : m false (c0 :: (cr ++ (ws ++ textChain tl))) = some (t.toRec, ws ++ textChain tl) := by
      rw [← List.cons_append, ← hc0]
      exact h1
    rw [htc, scanAll_cons_some m hm false c0 _ t.toRec _ h1']
    rw [List.map_cons]
    congr 1
    cases tl with
    | nil =>
      rw [textChain, List.append_nil]
      exact scanAll_allspace hsp ws hws true
    | cons x xs =>
      cases ws with
      | nil =>
        rcases hlast with htl | hne
        · exact absurd htl (by simp)
        · exact absurd rfl hne
      | cons w ws' =>
        have hw := hws w (List.mem_cons_self w ws')
        rw [List.cons_append, scanAll_cons_none m true w _ (hsp true w _ hw), space_not_word hw]
        rw [scanAll_skip hsp ws' (fun x hx => hws x (List.mem_cons_of_mem w hx)) _]
        exact ih hWFtl

/-- Claim C7: on every input text conforming to the strict tally grammar
(whitespace-separated strict tokens, with optional leading and trailing
whitespace), the strict-variant and whitespace-tolerant-variant extractors
produce identical record sequences — namely the tokens' records in order;
`"16Y12-A1-200"` yields count 16, diameter `Y12`, mark `A1` under both, and
the tolerant variant accepts `"15 R10 - CL1 - 600"` as in the spec. -/
theorem C7_strict_tolerant_equiv :
    (∀ (lead : List Char) (xs : List (Tok × List Char)),
        (∀ c ∈ lead, isSpaceChar c = true) → WFchain xs →
          extractPage2Data (String.mk (lead ++ textChain xs)) =
            xs.map (fun p => p.1.toRec)
        ∧ extractPage2DataTol (String.mk (lead ++ textChain xs)) =
            xs.map (fun p => p.1.toRec))
  ∧ extractPage2Data "16Y12-A1-200" = [⟨16, "Y12", "A1"⟩]
  ∧ extractPage2DataTol "16Y12-A1-200" = [⟨16, "Y12", "A1"⟩]
  ∧ extractPage2DataTol "15 R10 - CL1 - 600" = [⟨15, "R10", "CL1"⟩] := by
  refine ⟨?_, by decide, by decide, by decide⟩
  intro lead xs hlead hwf
  constructor
  · show scanAll matchPage2StrictAt false (lead ++ textChain xs) = _
    rw [scanAll_skip matchPage2StrictAt_space lead hlead]
    exact scanAll_tokens matchPage2StrictAt_shrink matchPage2StrictAt_space
      matchPage2StrictAt_token xs hwf
  · show scanAll matchPage2TolAt false (lead ++ textChain xs) = _
    rw [scanAll_skip matchPage2TolAt_space lead hlead]
    exact scanAll_tokens matchPage2TolAt_shrink matchPage2TolAt_space
      matchPage2TolAt_token xs hwf

/-- Claim C7 witness: the conforming text `" 16Y12-A1-200"` (one leading
space, one token with suffix) is extracted identically by both variants. -/
theorem C7_strict_tolerant_equiv_witness :
    extractPage2Data (String.mk ([' '] ++ textChain
        [(⟨['1', '6'], 'Y', ['1', '2'], ['A'], ['1'], some ['2', '0', '0']⟩, [])])) =
      [⟨16, "Y12", "A1"⟩]
  ∧ extractPage2DataTol (String.mk ([' '] ++ textChain
        [(⟨['1', '6'], 'Y', ['1', '2'], ['A'], ['1'], some ['2', '0', '0']⟩, [])])) =
      [⟨16, "Y12", "A1"⟩] := by
  have hwf : WFchain [(⟨['1', '6'], 'Y', ['1', '2'], ['A'], ['1'], some ['2', '0', '0']⟩, [])] := by
    refine ⟨⟨by decide, by decide, by decide, by decide, by decide, by decide, by decide,
      by decide, by decide, by decide, ?_⟩, by decide⟩
    intro d hd
    injection hd with h2
    subst h2
    exact ⟨by decide, by decide⟩
  have h := C7_strict_tolerant_equiv.1 [' ']
    [(⟨['1', '6'], 'Y', ['1', '2'], ['A'], ['1'], some ['2', '0', '0']⟩, [])]
    (by decide) hwf
  constructor
  · rw [h.1]
    decide
  · rw [h.2]
    decide

/-- Stable insertion step of `Array.prototype.sort` with the comparator
`(a, b) => a.mark.localeCompare(b.mark)` under an arbitrary default-locale
collation `cmp` (sign of `localeCompare`). -/
def insertRowWith (cmp : String → String → Int) (a : Row) : List Row → List Row
  | [] => [a]
  | b :: bs =>
    if cmp a.mark b.mark < 0 then a :: b :: bs else b :: insertRowWith cmp a bs

/-- `tableData.sort((a, b) => a.mark.localeCompare(b.mark))` under an
arbitrary default-locale collation. -/
def sortRowsWith (cmp : String → String → Int) (l : List Row) : List Row :=
  l.foldr (insertRowWith cmp) []

/-- `handleCompare` of `src/App.jsx` with the ambient default locale made
explicit: `localeCompare` consults the environment's default collation, so
the sort comparator is a parameter; `handleCompare` is the instance at the
root-locale comparator `jsCompareStrings`. -/
def handleCompareLocale (cmp : String → String → Int) (text1 text2 : String)
    (sectionAndLayout : Bool) : List Row :=
  let page1Data := extractPage1Data text1
  let page2Data := extractPage2Data text2
  let grouped := page2Grouped page2Data
  sortRowsWith cmp (page1Data.map (mkRowA grouped sectionAndLayout))

/-- `insertRow` is the root-locale instance of the generic insertion step. -/
lemma insertRow_eq_with (a : Row) : ∀ l, insertRow a l = insertRowWith jsCompareStrings a l
  | [] => rfl
  | b :: bs => by
    rw [insertRow, insertRowWith]
    split
    · rfl
    · rw [insertRow_eq_with a bs]

/-- `handleCompare` is the root-locale instance of `handleCompareLocale`. -/
lemma handleCompare_eq_locale (text1 text2 : String) (flag : Bool) :
    handleCompare text1 text2 flag = handleCompareLocale jsCompareStrings text1 text2 flag := by
  show sortRows _ = sortRowsWith jsCompareStrings _
  generalize (extractPage1Data text1).map
    (mkRowA (page2Grouped (extractPage2Data text2)) flag) = l
  induction l with
  | nil => rfl
  | cons a as ih =>
    show insertRow a (sortRows as) = insertRowWith jsCompareStrings a (sortRowsWith jsCompareStrings as)
    rw [insertRow_eq_with a (sortRows as), ih]

/-- The collation key of a mark string under the documented Danish/Norwegian
default collation, restricted to the mark alphabet: the digraph `AA` is
tailored to the letter Å, which collates after every plain uppercase letter
(key 91, one past `Z`); all other characters keep their code-point order. -/
def daKey : List Char → List Nat
  | [] => []
  | 'A' :: 'A' :: rest => 91 :: daKey rest
  | c :: rest => c.toNat :: daKey rest

/-- Ordinal comparison of collation keys. -/
def natListCompare : List Nat → List Nat → Int
  | [], [] => 0
  | [], _ :: _ => -1
  | _ :: _, [] => 1
  | a :: as, b :: bs =>
    if a < b then -1 else if b < a then 1 else natListCompare as bs

/-- The sign of `a.localeCompare(b)` under a Danish/Norwegian default locale,
restricted to mark strings: compare the tailored collation keys. -/
def daCompareStrings (a b : String) : Int :=
  natListCompare (daKey a.data) (daKey b.data)

/-- Generic sortedness of the insertion step: for any antisymmetric
comparator, inserting into a pairwise-adjacent-sorted list preserves that
order. -/
lemma insertRowWith_chain (cmp : String → String → Int)
    (hflip : ∀ a b, cmp a b = -cmp b a) (a : Row) :
    ∀ l, List.Chain' (fun x y : Row => cmp x.mark y.mark ≤ 0) l →
      List.Chain' (fun x y : Row => cmp x.mark y.mark ≤ 0) (insertRowWith cmp a l)
  | [], _ => by simp [insertRowWith]
  | b :: bs, h => by
    rw [insertRowWith]
    split
    · rename_i hc
      exact List.chain'_cons.mpr ⟨le_of_lt hc, h⟩
    · rename_i hc
      have hba : cmp b.mark a.mark ≤ 0 := by
        have h0 : 0 ≤ cmp a.mark b.mark := not_lt.mp hc
        rw [hflip b.mark a.mark]
        omega
      cases bs with
      | nil => simp [insertRowWith, hba]
      | cons x xs =>
        rcases List.chain'_cons.mp h with ⟨hbx, hxs⟩
        have htail := insertRowWith_chain cmp hflip a (x :: xs) hxs
        rw [insertRowWith] at htail ⊢
        by_cases hax : cmp a.mark x.mark < 0
        · rw [if_pos hax] at htail ⊢
          exact List.chain'_cons.mpr ⟨hba, htail⟩
        · rw [if_neg hax] at htail ⊢
          exact List.chain'_cons.mpr ⟨hbx, htail⟩

/-- Generic sortedness of the sort: adjacent rows are non-decreasing under
any antisymmetric comparator. -/
lemma sortRowsWith_chain (cmp : String → String → Int)
    (hflip : ∀ a b, cmp a b = -cmp b a) (l : List Row) :
    List.Chain' (fun x y : Row => cmp x.mark y.mark ≤ 0) (sortRowsWith cmp l) := by
  induction l with
  | nil => simp [sortRowsWith]
  | cons a as ih => exact insertRowWith_chain cmp hflip a (sortRowsWith cmp as) ih

/-- Claim C6 counterexample: under a Danish/Norwegian default locale the sort
comparator `a.mark.localeCompare(b.mark)` places the grammar-valid mark
`AA1` after `B1` (the `AA` digraph collates as Å, past `Z`), so the
reconciliation output is not sorted by ordinal string comparison: the rows
come out as `B1, AA1` although `"AA1" < "B1"` ordinally. -/
theorem C6_counterexample :
    (handleCompareLocale daCompareStrings
        "60 Y12 3550 60 B1 61 Y12 3550 60 AA1" "" false).map Row.mark = ["B1", "AA1"]
  ∧ ¬ List.Pairwise (fun a b : Row => a.mark ≤ b.mark)
      (handleCompareLocale daCompareStrings
        "60 Y12 3550 60 B1 61 Y12 3550 60 AA1" "" false) := by
  have hrows : handleCompareLocale daCompareStrings
      "60 Y12 3550 60 B1 61 Y12 3550 60 AA1" "" false =
      [⟨"B1", 60, "Y12", 0, "N/A", -60, false⟩, ⟨"AA1", 61, "Y12", 0, "N/A", -61, false⟩] := by
    decide
  have hlt : ("AA1" : String) < "B1" := by
    rw [String.lt_iff_toList_lt]
    exact List.Lex.rel (by decide)
  constructor
  · rw [hrows]
    rfl
  · rw [hrows]
    intro hp
    rcases List.pairwise_cons.mp hp with ⟨hb, _⟩
    have h1 := hb ⟨"AA1", 61, "Y12", 0, "N/A", -61, false⟩ (List.mem_cons_self _ _)
    exact absurd hlt (not_lt.mpr h1)

/-- Claim C6, amended: the rows are sorted by the *ambient default locale's*
collation — for every antisymmetric comparator, adjacent rows of
`handleCompareLocale` compare non-positively — and in the root/common
default locale, whose collation coincides with ordinal comparison on mark
strings, the output is sorted by lexicographic string order, with `A10`
before `A9`. -/
theorem C6_amended :
    (∀ (cmp : String → String → Int), (∀ a b, cmp a b = -cmp b a) →
      ∀ (text1 text2 : String) (flag : Bool),
        List.Chain' (fun a b : Row => cmp a.mark b.mark ≤ 0)
          (handleCompareLocale cmp text1 text2 flag))
  ∧ (∀ (text1 text2 : String) (flag : Bool),
      List.Pairwise (fun a b : Row => a.mark ≤ b.mark) (handleCompare text1 text2 flag))
  ∧ (handleCompare "60 Y12 3550 60 A9 61 Y12 3550 60 A10" "" false).map Row.mark =
      ["A10", "A9"]
  ∧ (("A10" : String) < "A9") := by
  refine ⟨?_, ?_, by decide, ?_⟩
  · intro cmp hflip text1 text2 flag
    exact sortRowsWith_chain cmp hflip _
  · intro text1 text2 flag
    show List.Pairwise _ (sortRows _)
    exact sortRows_sorted _
  · rw [String.lt_iff_toList_lt]
    exact List.Lex.cons (List.Lex.rel (by decide))

/-- Claim C6 amended witness: the root-locale comparator is antisymmetric,
and the pipeline sorted with it on the `A9`/`A10` input satisfies the
adjacent-order property. -/
theorem C6_amended_witness :
    List.Chain' (fun a b : Row => jsCompareStrings a.mark b.mark ≤ 0)
      (handleCompareLocale jsCompareStrings "60 Y12 3550 60 A9 61 Y12 3550 60 A10" "" false) :=
  C6_amended.1 jsCompareStrings (fun a b => jsCompareChars_neg a.data b.data)
    "60 Y12 3550 60 A9 61 Y12 3550 60 A10" "" false
